import Mathlib

/-!
Verification of the modbus-tools slave codec core against its specification.

The definitions below are a shallow embedding of the Rust sources:
bytes are modelled as natural numbers (values of u8), buffers as lists,
u16 values as natural numbers below 65536 with explicit wrap-around where
the source performs u16 arithmetic, and the cursor of the read context as
an explicit position into the buffer.  Fallible reads return Option and
the three-valued decode outcome (error, need-more-bytes, done) is the
inductive DResult, mirroring the Result of Option of the source.
-/

set_option maxRecDepth 8192

namespace Modbus

/-- Maximum number of registers, from src/modbus/src/data/mod.rs. -/
def MAX_NREGS : Nat := 125

/-- Maximum number of coils, from src/modbus/src/data/mod.rs. -/
def MAX_NCOILS : Nat := MAX_NREGS * 16

/-- Maximum size of stored data, from src/modbus/src/data/mod.rs. -/
def MAX_DATA_SIZE : Nat := 256

/-- Maximum size of a protocol data unit, from src/modbus/src/data/mod.rs. -/
def MAX_PDU_SIZE : Nat := 253

/-- Coil ON wire value, from src/modbus/src/codec/pduext.rs. -/
def COIL_ON : Nat := 0xFF00

/-- Coil OFF wire value, from src/modbus/src/codec/pduext.rs. -/
def COIL_OFF : Nat := 0x0000

/-- Embedding of checks::check_coils_count (src/modbus/src/data/checks.rs). -/
def check_coils_count (nobjs : Nat) : Bool :=
  0 < nobjs && nobjs ≤ MAX_NCOILS

/-- Embedding of checks::check_registers_count (src/modbus/src/data/checks.rs). -/
def check_registers_count (nobjs : Nat) : Bool :=
  0 < nobjs && nobjs ≤ MAX_NREGS

/-- Embedding of helpers::get_coils_len (src/modbus/src/data/helpers.rs). -/
def get_coils_len (nobjs : Nat) : Nat :=
  if 0 < nobjs then (nobjs - 1) / 8 + 1 else 0

/-- Embedding of helpers::get_registers_len (src/modbus/src/data/helpers.rs).
The source multiplies in u16 (nobjs * 2) before widening to usize, hence the
explicit wrap-around. -/
def get_registers_len (nobjs : Nat) : Nat :=
  nobjs * 2 % 65536

/-- The error taxonomy of src/modbus/src/codec/error.rs as used by the codec. -/
inductive Error where
  | invalidData
  | invalidVersion
  | invalidCrc
  | bufferToSmall
deriving DecidableEq, Repr

/-- Three-valued decode outcome: Err(e), Ok(None) and Ok(Some v) of the
Result of Option idiom used throughout the codec. -/
inductive DResult (α : Type) where
  | err (e : Error)
  | incomplete
  | ok (val : α)
deriving DecidableEq, Repr

/-- Embedding of ReadCtx::read_u8 (src/modbus/src/codec/context.rs): the
read context is the pair of the underlying buffer and the cursor position;
a successful read returns the byte and the advanced position. -/
def read_u8 (buf : List Nat) (pos : Nat) : Option (Nat × Nat) :=
  match buf[pos]? with
  | some b => some (b, pos + 1)
  | none => none

/-- Embedding of ReadCtx::read_u16_be (src/modbus/src/codec/context.rs). -/
def read_u16_be (buf : List Nat) (pos : Nat) : Option (Nat × Nat) :=
  match read_u8 buf pos with
  | none => none
  | some (hi, p1) =>
    match read_u8 buf p1 with
    | none => none
    | some (lo, p2) => some (hi * 256 + lo, p2)

/-- Embedding of ReadCtx::remaining (src/modbus/src/codec/context.rs). -/
def remaining (buf : List Nat) (pos : Nat) : Nat :=
  buf.length - pos

/-- Embedding of ReadCtx::is_enough (src/modbus/src/codec/context.rs). -/
def is_enough (buf : List Nat) (pos : Nat) (size : Nat) : Option Bool :=
  if size ≤ remaining buf pos then some true else none

/-- Reading a block of n bytes at the cursor, as performed by the cursor
consumers CoilsCursor, RegistersCursorBe and BytesCursor when the decoder
materializes a body (their reads are unchecked in the source and are always
preceded by an is_enough guard). -/
def read_bytes (buf : List Nat) (pos n : Nat) : List Nat × Nat :=
  ((buf.drop pos).take n, pos + n)

/-- Byte-pair swap performed by RegistersCursorBe (src/modbus/src/data/registers.rs):
it reads native-endian u16 words from the input cursor and writes them
big-endian into the destination, which on a little-endian host swaps every
byte pair. -/
def swap_pairs : List Nat → List Nat
  | a :: b :: rest => b :: a :: swap_pairs rest
  | [a] => [a]
  | [] => []

/-- The RequestPdu variants of the frame model (the modbus crate mirrors
core/frame/src/request.rs); data fields hold the materialized body bytes. -/
inductive RequestPdu where
  | readCoils (address nobjs : Nat)
  | readDiscreteInputs (address nobjs : Nat)
  | readHoldingRegisters (address nobjs : Nat)
  | readInputRegisters (address nobjs : Nat)
  | writeSingleCoil (address : Nat) (value : Bool)
  | writeSingleRegister (address value : Nat)
  | writeMultipleCoils (address nobjs : Nat) (data : List Nat)
  | writeMultipleRegisters (address nobjs : Nat) (data : List Nat)
  | encapsulatedInterfaceTransport (mei_type : Nat) (data : List Nat)
  | raw (function : Nat) (data : List Nat)
deriving DecidableEq, Repr

/-- Embedding of read_pdu (src/modbus/src/codec/pduext.rs).  Each arm
mirrors the source: the wait macro on a short read maps to the incomplete
branch, the question-mark on a failed check to the err branch. -/
def read_pdu (buf : List Nat) (pos : Nat) : DResult (RequestPdu × Nat) :=
  match read_u8 buf pos with
  | none => .incomplete
  | some (func, p0) =>
    match func with
    | 1 =>
      match read_u16_be buf p0 with
      | none => .incomplete
      | some (address, p1) =>
        match read_u16_be buf p1 with
        | none => .incomplete
        | some (nobjs, p2) =>
          if check_coils_count nobjs then .ok (.readCoils address nobjs, p2)
          else .err .invalidData
    | 2 =>
      match read_u16_be buf p0 with
      | none => .incomplete
      | some (address, p1) =>
        match read_u16_be buf p1 with
        | none => .incomplete
        | some (nobjs, p2) =>
          if check_coils_count nobjs then .ok (.readDiscreteInputs address nobjs, p2)
          else .err .invalidData
    | 3 =>
      match read_u16_be buf p0 with
      | none => .incomplete
      | some (address, p1) =>
        match read_u16_be buf p1 with
        | none => .incomplete
        | some (nobjs, p2) =>
          if check_registers_count nobjs then .ok (.readHoldingRegisters address nobjs, p2)
          else .err .invalidData
    | 4 =>
      match read_u16_be buf p0 with
      | none => .incomplete
      | some (address, p1) =>
        match read_u16_be buf p1 with
        | none => .incomplete
        | some (nobjs, p2) =>
          if check_registers_count nobjs then .ok (.readInputRegisters address nobjs, p2)
          else .err .invalidData
    | 5 =>
      match read_u16_be buf p0 with
      | none => .incomplete
      | some (address, p1) =>
        match read_u16_be buf p1 with
        | none => .incomplete
        | some (value, p2) =>
          if value == COIL_ON || value == COIL_OFF then
            .ok (.writeSingleCoil address (value == COIL_ON), p2)
          else .err .invalidData
    | 6 =>
      match read_u16_be buf p0 with
      | none => .incomplete
      | some (address, p1) =>
        match read_u16_be buf p1 with
        | none => .incomplete
        | some (value, p2) =>
          .ok (.writeSingleRegister address value, p2)
    | 15 =>
      match read_u16_be buf p0 with
      | none => .incomplete
      | some (address, p1) =>
        match read_u16_be buf p1 with
        | none => .incomplete
        | some (nobjs, p2) =>
          match read_u8 buf p2 with
          | none => .incomplete
          | some (nbytes, p3) =>
            if check_coils_count nobjs then
              if get_coils_len nobjs == nbytes then
                match is_enough buf p3 nbytes with
                | none => .incomplete
                | some _ =>
                  let r := read_bytes buf p3 (get_coils_len nobjs)
                  .ok (.writeMultipleCoils address nobjs r.1, r.2)
              else .err .invalidData
            else .err .invalidData
    | 16 =>
      match read_u16_be buf p0 with
      | none => .incomplete
      | some (address, p1) =>
        match read_u16_be buf p1 with
        | none => .incomplete
        | some (nobjs, p2) =>
          match read_u8 buf p2 with
          | none => .incomplete
          | some (nbytes, p3) =>
            if check_registers_count nobjs then
              if get_registers_len nobjs == nbytes then
                match is_enough buf p3 nbytes with
                | none => .incomplete
                | some _ =>
                  let r := read_bytes buf p3 (get_registers_len nobjs)
                  .ok (.writeMultipleRegisters address nobjs (swap_pairs r.1), r.2)
              else .err .invalidData
            else .err .invalidData
    | 43 =>
      match read_u8 buf p0 with
      | none => .incomplete
      | some (mei_type, p1) =>
        if mei_type == 14 || mei_type == 13 then
          match is_enough buf p1 1 with
          | none => .incomplete
          | some _ =>
            if mei_type == 14 then
              let r := read_bytes buf p1 1
              .ok (.encapsulatedInterfaceTransport mei_type r.1, r.2)
            else
              let remain := remaining buf p1 % 65536
              let r := read_bytes buf p1 remain
              .ok (.encapsulatedInterfaceTransport mei_type r.1, r.2)
        else .err .invalidData
    | _ =>
      let n := Nat.min (remaining buf p0) MAX_DATA_SIZE
      let r := read_bytes buf p0 n
      .ok (.raw func r.1, r.2)

/-- Whether a function code is one the decoder gives a dedicated arm
(everything else falls to the Raw arm). -/
def known_function (func : Nat) : Bool :=
  func = 1 || func = 2 || func = 3 || func = 4 || func = 5 || func = 6 ||
    func = 15 || func = 16 || func = 43

/-- Dispatch fact for the fall-through Raw arm of read_pdu. -/
lemma read_pdu_raw_arm {buf : List Nat} {pos func p0 : Nat}
    (h : read_u8 buf pos = some (func, p0)) (hn : known_function func = false) :
    read_pdu buf pos =
      .ok (.raw func ((buf.drop p0).take (Nat.min (remaining buf p0) MAX_DATA_SIZE)),
        p0 + Nat.min (remaining buf p0) MAX_DATA_SIZE) := by
  rw [known_function] at hn
  simp only [Bool.or_eq_false_iff, decide_eq_false_iff_not] at hn
  obtain ⟨⟨⟨⟨⟨⟨⟨⟨n1, n2⟩, n3⟩, n4⟩, n5⟩, n6⟩, n15⟩, n16⟩, n43⟩ := hn
  rw [read_pdu, h]
  dsimp only
  split
  all_goals first
    | omega
    | rfl

/-- The MBAP header record (src/modbus/src/codec/mbap.rs). -/
structure Mbap where
  id : Nat
  proto : Nat
  len : Nat
  slave : Nat
deriving DecidableEq, Repr

/-- Embedding of read_mbap together with validate_mbap
(src/modbus/src/codec/mbap.rs). -/
def read_mbap (buf : List Nat) (pos : Nat) : DResult (Mbap × Nat) :=
  match read_u16_be buf pos with
  | none => .incomplete
  | some (id, p1) =>
    match read_u16_be buf p1 with
    | none => .incomplete
    | some (proto, p2) =>
      match read_u16_be buf p2 with
      | none => .incomplete
      | some (len, p3) =>
        match read_u8 buf p3 with
        | none => .incomplete
        | some (slave, p4) =>
          if proto ≠ 0 then .err .invalidVersion
          else if len < 2 || MAX_DATA_SIZE < len then .err .invalidData
          else .ok ({ id := id, proto := proto, len := len, slave := slave }, p4)

/-- The 256-entry CRC-16/Modbus table CRC16 (src/core/codec/src/rtu/codec.rs). -/
def CRC16 : List Nat := [
  0x0000, 0xc0c1, 0xc181, 0x0140, 0xc301, 0x03c0, 0x0280, 0xc241, 0xc601, 0x06c0, 0x0780,
  0xc741, 0x0500, 0xc5c1, 0xc481, 0x0440, 0xcc01, 0x0cc0, 0x0d80, 0xcd41, 0x0f00, 0xcfc1, 0xce81,
  0x0e40, 0x0a00, 0xcac1, 0xcb81, 0x0b40, 0xc901, 0x09c0, 0x0880, 0xc841, 0xd801, 0x18c0, 0x1980,
  0xd941, 0x1b00, 0xdbc1, 0xda81, 0x1a40, 0x1e00, 0xdec1, 0xdf81, 0x1f40, 0xdd01, 0x1dc0, 0x1c80,
  0xdc41, 0x1400, 0xd4c1, 0xd581, 0x1540, 0xd701, 0x17c0, 0x1680, 0xd641, 0xd201, 0x12c0, 0x1380,
  0xd341, 0x1100, 0xd1c1, 0xd081, 0x1040, 0xf001, 0x30c0, 0x3180, 0xf141, 0x3300, 0xf3c1, 0xf281,
  0x3240, 0x3600, 0xf6c1, 0xf781, 0x3740, 0xf501, 0x35c0, 0x3480, 0xf441, 0x3c00, 0xfcc1, 0xfd81,
  0x3d40, 0xff01, 0x3fc0, 0x3e80, 0xfe41, 0xfa01, 0x3ac0, 0x3b80, 0xfb41, 0x3900, 0xf9c1, 0xf881,
  0x3840, 0x2800, 0xe8c1, 0xe981, 0x2940, 0xeb01, 0x2bc0, 0x2a80, 0xea41, 0xee01, 0x2ec0, 0x2f80,
  0xef41, 0x2d00, 0xedc1, 0xec81, 0x2c40, 0xe401, 0x24c0, 0x2580, 0xe541, 0x2700, 0xe7c1, 0xe681,
  0x2640, 0x2200, 0xe2c1, 0xe381, 0x2340, 0xe101, 0x21c0, 0x2080, 0xe041, 0xa001, 0x60c0, 0x6180,
  0xa141, 0x6300, 0xa3c1, 0xa281, 0x6240, 0x6600, 0xa6c1, 0xa781, 0x6740, 0xa501, 0x65c0, 0x6480,
  0xa441, 0x6c00, 0xacc1, 0xad81, 0x6d40, 0xaf01, 0x6fc0, 0x6e80, 0xae41, 0xaa01, 0x6ac0, 0x6b80,
  0xab41, 0x6900, 0xa9c1, 0xa881, 0x6840, 0x7800, 0xb8c1, 0xb981, 0x7940, 0xbb01, 0x7bc0, 0x7a80,
  0xba41, 0xbe01, 0x7ec0, 0x7f80, 0xbf41, 0x7d00, 0xbdc1, 0xbc81, 0x7c40, 0xb401, 0x74c0, 0x7580,
  0xb541, 0x7700, 0xb7c1, 0xb681, 0x7640, 0x7200, 0xb2c1, 0xb381, 0x7340, 0xb101, 0x71c0, 0x7080,
  0xb041, 0x5000, 0x90c1, 0x9181, 0x5140, 0x9301, 0x53c0, 0x5280, 0x9241, 0x9601, 0x56c0, 0x5780,
  0x9741, 0x5500, 0x95c1, 0x9481, 0x5440, 0x9c01, 0x5cc0, 0x5d80, 0x9d41, 0x5f00, 0x9fc1, 0x9e81,
  0x5e40, 0x5a00, 0x9ac1, 0x9b81, 0x5b40, 0x9901, 0x59c0, 0x5880, 0x9841, 0x8801, 0x48c0, 0x4980,
  0x8941, 0x4b00, 0x8bc1, 0x8a81, 0x4a40, 0x4e00, 0x8ec1, 0x8f81, 0x4f40, 0x8d01, 0x4dc0, 0x4c80,
  0x8c41, 0x4400, 0x84c1, 0x8581, 0x4540, 0x8701, 0x47c0, 0x4680, 0x8641, 0x8201, 0x42c0, 0x4380,
  0x8341, 0x4100, 0x81c1, 0x8081, 0x4040]

/-- One step of the table-driven CRC update, from calc_crc_inner
(src/core/codec/src/rtu/codec.rs): crc = (crc >> 8) XOR TABLE[(crc XOR byte) AND 0xFF]. -/
def crc_step (crc b : Nat) : Nat :=
  (crc >>> 8) ^^^ CRC16.getD ((crc ^^^ b) &&& 255) 0

/-- Embedding of calc_crc_inner (src/core/codec/src/rtu/codec.rs). -/
def calc_crc_inner (crc : Nat) (bytes : List Nat) : Nat :=
  bytes.foldl crc_step crc

/-- Byte swap of a 16-bit value: u16::from_be on a little-endian host. -/
def swap16 (x : Nat) : Nat :=
  x % 256 * 256 + x / 256

/-- Embedding of calc_crc (src/core/codec/src/rtu/codec.rs): the table
update started at 0xFFFF, byte-swapped by u16::from_be. -/
def calc_crc (bytes : List Nat) : Nat :=
  swap16 (calc_crc_inner 0xFFFF bytes)

/-- Modelled from the spec: calc_crc_be of the missing module
src/modbus/src/codec/rtuext.rs.  Per spec section 4.5 the wire value is the
from-BE of the accumulator, which is exactly calc_crc of
src/core/codec/src/rtu/codec.rs (present in src/). -/
def calc_crc_be (bytes : List Nat) : Nat :=
  calc_crc bytes

/-- Embedding of read_crc (src/modbus/src/codec/slave.rs): read the stored
big-endian CRC word, then verify that the CRC over all bytes processed so
far (frame bytes followed by the stored CRC bytes) is zero. -/
def read_crc (buf : List Nat) (pos : Nat) : DResult (Nat × Nat) :=
  match read_u16_be buf pos with
  | none => .incomplete
  | some (crc, p1) =>
    if calc_crc_be (buf.take p1) == 0 then .ok (crc, p1) else .err .invalidCrc

/-- The RequestFrame record (id, slave, pdu); id is 0 on RTU. -/
structure RequestFrame where
  id : Nat
  slave : Nat
  pdu : RequestPdu
deriving DecidableEq, Repr

/-- Embedding of read_rtu_frame (src/modbus/src/codec/slave.rs). -/
def read_rtu_frame (buf : List Nat) (pos : Nat) : DResult (RequestFrame × Nat) :=
  match read_u8 buf pos with
  | none => .incomplete
  | some (slave, p1) =>
    match read_pdu buf p1 with
    | .incomplete => .incomplete
    | .err e => .err e
    | .ok (pdu, p2) =>
      match read_crc buf p2 with
      | .incomplete => .incomplete
      | .err e => .err e
      | .ok (_, p3) => .ok ({ id := 0, slave := slave, pdu := pdu }, p3)

/-- Embedding of read_net_frame (src/modbus/src/codec/slave.rs). -/
def read_net_frame (buf : List Nat) (pos : Nat) : DResult (RequestFrame × Nat) :=
  match read_mbap buf pos with
  | .incomplete => .incomplete
  | .err e => .err e
  | .ok (header, p1) =>
    match read_pdu buf p1 with
    | .incomplete => .incomplete
    | .err e => .err e
    | .ok (pdu, p2) =>
      .ok ({ id := header.id, slave := header.slave, pdu := pdu }, p2)

/-- CodecMode (src/modbus/src/codec/slave.rs). -/
inductive CodecMode where
  | rtu
  | net
deriving DecidableEq, Repr

/-- CodecFlowType (src/modbus/src/codec/slave.rs). -/
inductive CodecFlowType where
  | packet
  | stream
deriving DecidableEq, Repr

/-- Embedding of CodecFlowType::is_packet (src/modbus/src/codec/slave.rs). -/
def CodecFlowType.is_packet : CodecFlowType → Bool
  | .packet => true
  | .stream => false

/-- The frame parse of SlaveCodec::decode before the buffer is advanced:
a fresh ReadCtx on the input, dispatched on the codec mode. -/
def parse_frame (mode : CodecMode) (buf : List Nat) : DResult (RequestFrame × Nat) :=
  match mode with
  | .rtu => read_rtu_frame buf 0
  | .net => read_net_frame buf 0

/-- Embedding of SlaveCodec::advance_buffer (src/modbus/src/codec/slave.rs):
on Ok(Some) advance by the processed count, on Err clear, on Ok(None) clear
exactly when the flow type is Packet. -/
def advance_buffer (flow : CodecFlowType) (src : List Nat)
    (msg : DResult (RequestFrame × Nat)) : List Nat :=
  match msg with
  | .ok (_, processed) => src.drop processed
  | .err _ => []
  | .incomplete => if flow.is_packet then [] else src

/-- Embedding of SlaveCodec::decode (src/modbus/src/codec/slave.rs): the
returned value together with the state of the input buffer after the call. -/
def decode (mode : CodecMode) (flow : CodecFlowType) (src : List Nat) :
    DResult RequestFrame × List Nat :=
  let res := parse_frame mode src
  (match res with
   | .ok (f, _) => .ok f
   | .incomplete => .incomplete
   | .err e => .err e,
   advance_buffer flow src res)

example :
    (decode .rtu .stream [0x11, 0x01, 0x00, 0x13, 0x00, 0x25, 0x0E, 0x84]).1 =
      .ok { id := 0, slave := 0x11, pdu := .readCoils 0x13 37 } := by decide

example :
    (decode .net .stream [0x00, 0x01, 0x00, 0x00, 0x00, 0x06, 0x11, 0x03, 0x00, 0x6B, 0x00, 0x03]).1 =
      .ok { id := 1, slave := 0x11, pdu := .readHoldingRegisters 0x6B 3 } := by decide

example :
    (decode .rtu .stream [0x11, 0x01, 0x00, 0x13, 0x00, 0x25, 0x0E, 0x85]).1 = .err .invalidCrc := by
  decide

/-- Exception codes (the modbus crate mirrors core/frame/src/exception.rs). -/
inductive Code where
  | illegalFunction
  | illegalDataAddress
  | illegalDataValue
  | slaveDeviceFailure
  | acknowledge
  | slaveDeviceBusy
  | memoryParityError
  | gatewayPathUnavailable
  | gatewayTargetDeviceFailedToRespond
deriving DecidableEq, Repr

/-- The discriminant values of Code, as cast by (code as u8). -/
def Code.toU8 : Code → Nat
  | .illegalFunction => 0x01
  | .illegalDataAddress => 0x02
  | .illegalDataValue => 0x03
  | .slaveDeviceFailure => 0x04
  | .acknowledge => 0x05
  | .slaveDeviceBusy => 0x06
  | .memoryParityError => 0x08
  | .gatewayPathUnavailable => 0x0A
  | .gatewayTargetDeviceFailedToRespond => 0x0B

/-- The ResponsePdu variants (the modbus crate mirrors core/frame/src/response.rs). -/
inductive ResponsePdu where
  | readCoils (nobjs : Nat) (data : List Nat)
  | readDiscreteInputs (nobjs : Nat) (data : List Nat)
  | readHoldingRegisters (nobjs : Nat) (data : List Nat)
  | readInputRegisters (nobjs : Nat) (data : List Nat)
  | writeSingleCoil (address : Nat) (value : Bool)
  | writeSingleRegister (address value : Nat)
  | writeMultipleCoils (address nobjs : Nat)
  | writeMultipleRegisters (address nobjs : Nat)
  | encapsulatedInterfaceTransport (mei_type : Nat) (data : List Nat)
  | raw (function : Nat) (data : List Nat)
  | exception (function : Nat) (code : Code)
deriving DecidableEq, Repr

/-- Embedding of ResponsePdu::len (core/frame/src/response.rs): the number
of wire bytes of the PDU, function byte included. -/
def ResponsePdu.len : ResponsePdu → Nat
  | .readCoils _ data => 2 + data.length
  | .readDiscreteInputs _ data => 2 + data.length
  | .readHoldingRegisters _ data => 2 + data.length
  | .readInputRegisters _ data => 2 + data.length
  | .writeSingleCoil _ _ => 5
  | .writeSingleRegister _ _ => 5
  | .writeMultipleCoils _ _ => 5
  | .writeMultipleRegisters _ _ => 5
  | .encapsulatedInterfaceTransport _ data => 2 + data.length
  | .raw _ data => 1 + data.length
  | .exception _ _ => 2

/-- The ResponseFrame record (id, slave, pdu). -/
structure ResponseFrame where
  id : Nat
  slave : Nat
  pdu : ResponsePdu
deriving DecidableEq, Repr

/-- Embedding of WriteCtx (src/modbus/src/codec/context.rs): the encoder
writes through a cursor into a buffer resized beforehand to its exact final
size, so the state is the fixed capacity together with the bytes written so
far (the position is the length of the written prefix). -/
structure WriteCtx where
  cap : Nat
  out : List Nat
deriving DecidableEq, Repr

/-- Embedding of WriteCtx::write_u8. -/
def WriteCtx.write_u8 (ctx : WriteCtx) (v : Nat) : Option WriteCtx :=
  if ctx.out.length < ctx.cap then some { ctx with out := ctx.out ++ [v] } else none

/-- Embedding of WriteCtx::write_u16_be: high byte then low byte. -/
def WriteCtx.write_u16_be (ctx : WriteCtx) (v : Nat) : Option WriteCtx :=
  match ctx.write_u8 (v / 256 % 256) with
  | none => none
  | some c => c.write_u8 (v % 256)

/-- Embedding of WriteCtx::write_bytes: byte-by-byte, failing when full. -/
def WriteCtx.write_bytes (ctx : WriteCtx) (bytes : List Nat) : Option WriteCtx :=
  match bytes with
  | [] => some ctx
  | b :: rest =>
    match ctx.write_u8 b with
    | none => none
    | some c => c.write_bytes rest

/-- Write as many bytes as fit, never failing: the behavior of the one
write_bytes call whose result the source discards (the
EncapsulatedInterfaceTransport arm of write_pdu). -/
def WriteCtx.write_bytes_lossy (ctx : WriteCtx) (bytes : List Nat) : WriteCtx :=
  { ctx with out := ctx.out ++ bytes.take (ctx.cap - ctx.out.length) }

/-- Embedding of WriteCtx::write_data_u16_be: asserts even length, then
reads native-endian u16 pairs and writes them big-endian (a byte-pair swap
on a little-endian host). -/
def WriteCtx.write_data_u16_be (ctx : WriteCtx) (values : List Nat) : Option WriteCtx :=
  if values.length % 2 = 0 then ctx.write_bytes (swap_pairs values) else none

/-- Embedding of WriteCtx::is_enough. -/
def WriteCtx.is_enough (ctx : WriteCtx) (size : Nat) : Option Bool :=
  if size ≤ ctx.cap - ctx.out.length then some true else none

/-- Embedding of coil_to_raw (src/modbus/src/codec/pduext.rs). -/
def coil_to_raw (value : Bool) : Nat :=
  if value then COIL_ON else COIL_OFF

/-- Embedding of write_pdu (src/modbus/src/codec/pduext.rs).  The unwraps
of the source on a full buffer map to the none branch; the catch-all
unreachable arm (ResponsePdu::Raw) also maps to none. -/
def write_pdu (ctx : WriteCtx) (src : ResponsePdu) : Option WriteCtx :=
  match src with
  | .readCoils _ data =>
    (ctx.is_enough (data.length + 2)).bind fun _ =>
    (ctx.write_u8 0x1).bind fun c =>
    (c.write_u8 (data.length % 256)).bind fun c =>
    c.write_bytes data
  | .readDiscreteInputs _ data =>
    (ctx.is_enough (data.length + 2)).bind fun _ =>
    (ctx.write_u8 0x2).bind fun c =>
    (c.write_u8 (data.length % 256)).bind fun c =>
    c.write_bytes data
  | .readHoldingRegisters _ data =>
    (ctx.is_enough (data.length + 2)).bind fun _ =>
    (ctx.write_u8 0x3).bind fun c =>
    (c.write_u8 (data.length % 256)).bind fun c =>
    c.write_data_u16_be data
  | .readInputRegisters _ data =>
    (ctx.is_enough (data.length + 2)).bind fun _ =>
    (ctx.write_u8 0x4).bind fun c =>
    (c.write_u8 (data.length % 256)).bind fun c =>
    c.write_data_u16_be data
  | .writeSingleCoil address value =>
    (ctx.is_enough 5).bind fun _ =>
    (ctx.write_u8 0x5).bind fun c =>
    (c.write_u16_be address).bind fun c =>
    c.write_u16_be (coil_to_raw value)
  | .writeSingleRegister address value =>
    (ctx.is_enough 5).bind fun _ =>
    (ctx.write_u8 0x6).bind fun c =>
    (c.write_u16_be address).bind fun c =>
    c.write_u16_be value
  | .writeMultipleCoils address nobjs =>
    (ctx.is_enough 5).bind fun _ =>
    (ctx.write_u8 0xF).bind fun c =>
    (c.write_u16_be address).bind fun c =>
    c.write_u16_be nobjs
  | .writeMultipleRegisters address nobjs =>
    (ctx.is_enough 5).bind fun _ =>
    (ctx.write_u8 0x10).bind fun c =>
    (c.write_u16_be address).bind fun c =>
    c.write_u16_be nobjs
  | .exception function code =>
    (ctx.is_enough 2).bind fun _ =>
    (ctx.write_u8 (function ||| 0x80)).bind fun c =>
    c.write_u8 code.toU8
  | .encapsulatedInterfaceTransport mei_type data =>
    (ctx.is_enough 2).bind fun _ =>
    (ctx.write_u8 0x2b).bind fun c =>
    (c.write_u8 mei_type).map fun c =>
    c.write_bytes_lossy data
  | .raw _ _ => none

/-- Embedding of write_mbap (src/modbus/src/codec/mbap.rs): transaction id,
protocol 0, then the length field, computed as pdu.len() as u16 + 1. -/
def write_mbap (ctx : WriteCtx) (frame : ResponseFrame) : Option WriteCtx :=
  (ctx.write_u16_be frame.id).bind fun c =>
  (c.write_u16_be 0).bind fun c =>
  c.write_u16_be ((frame.pdu.len % 65536 + 1) % 65536)

/-- Embedding of write_crc (src/modbus/src/codec/slave.rs): the CRC over
the bytes written so far, appended big-endian. -/
def write_crc (ctx : WriteCtx) : Option WriteCtx :=
  ctx.write_u16_be (calc_crc_be ctx.out)

/-- Embedding of write_rtu_frame (src/modbus/src/codec/slave.rs). -/
def write_rtu_frame (ctx : WriteCtx) (frame : ResponseFrame) : Option WriteCtx :=
  (ctx.write_u8 frame.slave).bind fun c =>
  (write_pdu c frame.pdu).bind fun c =>
  write_crc c

/-- Embedding of write_net_frame (src/modbus/src/codec/slave.rs). -/
def write_net_frame (ctx : WriteCtx) (frame : ResponseFrame) : Option WriteCtx :=
  (write_mbap ctx frame).bind fun c =>
  (c.write_u8 frame.slave).bind fun c =>
  write_pdu c frame.pdu

/-- Embedding of SlaveCodec::encode (src/modbus/src/codec/slave.rs): the
output buffer is resized to pdu.len() + 3 (RTU) or + 7 (Net) and the frame
is written into it from the start; on success every byte of the resized
buffer has been written, so the result is the written sequence. -/
def encode (mode : CodecMode) (frame : ResponseFrame) : Option (List Nat) :=
  match mode with
  | .rtu => (write_rtu_frame { cap := frame.pdu.len + 3, out := [] } frame).map (·.out)
  | .net => (write_net_frame { cap := frame.pdu.len + 7, out := [] } frame).map (·.out)

example :
    encode .rtu { id := 0, slave := 0x11, pdu := .readCoils 37 [0xCD, 0x6B, 0xB2, 0x0E, 0x1B] } =
      some [0x11, 0x01, 0x05, 0xCD, 0x6B, 0xB2, 0x0E, 0x1B, 0x45, 0xE6] := by decide

example :
    encode .net { id := 1, slave := 0x11, pdu := .readCoils 37 [0xCD, 0x6B, 0xB2, 0x0E, 0x1B] } =
      some [0x00, 0x01, 0x00, 0x00, 0x00, 0x08, 0x11, 0x01, 0x05, 0xCD, 0x6B, 0xB2, 0x0E, 0x1B] := by
  decide

example :
    encode .net { id := 1, slave := 1, pdu := .exception 0x03 .illegalFunction } =
      some [0x00, 0x01, 0x00, 0x00, 0x00, 0x03, 0x01, 0x83, 0x01] := by decide

/-- Embedding of DataStorage (src/modbus/src/data/storage.rs): a growable
byte buffer (SmallVec spills to the heap past its inline capacity, so the
type itself does not bound the length). -/
structure DataStorage where
  buffer : List Nat
deriving DecidableEq, Repr

/-- Embedding of DataStorage::len. -/
def DataStorage.size (d : DataStorage) : Nat :=
  d.buffer.length

/-- Embedding of DataStorage::raw; the assert on an oversized slice maps to
none. -/
def DataStorage.raw (bytes : List Nat) : Option DataStorage :=
  if bytes.length ≤ MAX_DATA_SIZE then some { buffer := bytes } else none

/-- Embedding of DataStorage::raw_empty; the assert maps to none. -/
def DataStorage.raw_empty (size : Nat) : Option DataStorage :=
  if size ≤ MAX_DATA_SIZE then some { buffer := List.replicate size 0 } else none

/-- Embedding of DataStorage::coils_empty: asserts the coil count, then
allocates get_coils_len zero bytes. -/
def DataStorage.coils_empty (nobjs : Nat) : Option DataStorage :=
  if check_coils_count nobjs then some { buffer := List.replicate (get_coils_len nobjs) 0 }
  else none

/-- Embedding of DataStorage::registers_empty. -/
def DataStorage.registers_empty (nobjs : Nat) : Option DataStorage :=
  if check_registers_count nobjs then
    some { buffer := List.replicate (get_registers_len nobjs) 0 }
  else none

/-- Overwrite a prefix of a buffer in place, as a producer writing into the
destination slice does: the length never changes. -/
def overwrite (dst content : List Nat) : List Nat :=
  (content.take dst.length ++ dst.drop content.length).take dst.length

/-- Embedding of DataStorage::coils: allocate coils_empty for the reported
count, then let the producer write into the slice (modelled as the content
it deposits; a slice write cannot change the length). -/
def DataStorage.coils (nobjs : Nat) (content : List Nat) : Option DataStorage :=
  (DataStorage.coils_empty nobjs).map fun d => { buffer := overwrite d.buffer content }

/-- Embedding of DataStorage::registers. -/
def DataStorage.registers (nobjs : Nat) (content : List Nat) : Option DataStorage :=
  (DataStorage.registers_empty nobjs).map fun d => { buffer := overwrite d.buffer content }

/-- Embedding of DataStorage::extend: extend_from_slice with no capacity
check. -/
def DataStorage.extend (d : DataStorage) (slice : List Nat) : DataStorage :=
  { buffer := d.buffer ++ slice }

/-- Embedding of DataStorage::set_u8: writes in place when the index is in
range, otherwise returns false and leaves the buffer alone. -/
def DataStorage.set_u8 (d : DataStorage) (idx v : Nat) : Bool × DataStorage :=
  if idx < d.size then (true, { buffer := d.buffer.set idx v }) else (false, d)

/-- Embedding of DataStorage::set_u16: asserts the pair index in range
(none on violation), then writes the two native-endian bytes in place. -/
def DataStorage.set_u16 (d : DataStorage) (idx v : Nat) : Option DataStorage :=
  if idx * 2 + 1 < d.size then
    some { buffer := (d.buffer.set (idx * 2) (v % 256)).set (idx * 2 + 1) (v / 256 % 256) }
  else none

/-- Embedding of DataStorage::set_bit: asserts the bit index in range, then
ORs or ANDs the addressed byte in place. -/
def DataStorage.set_bit (d : DataStorage) (idx : Nat) (value : Bool) : Option DataStorage :=
  if idx < d.size * 8 then
    let byte := d.buffer.getD (idx / 8) 0
    let v := if value then byte ||| (1 <<< (idx % 8)) else byte &&& (255 ^^^ (1 <<< (idx % 8)))
    some { buffer := d.buffer.set (idx / 8) v }
  else none

/-- Embedding of FixedQueue (src/modbus/src/transport/udp/queue.rs): a
VecDeque of Option slots plus the limit. -/
structure FixedQueue (T : Type) where
  data : List (Option T)
  limit : Nat

/-- Embedding of FixedQueue::new. -/
def FixedQueue.new (T : Type) (limit : Nat) : FixedQueue T :=
  { data := [], limit := limit }

/-- Embedding of FixedQueue::len. -/
def FixedQueue.size {T : Type} (q : FixedQueue T) : Nat :=
  q.data.length

/-- Embedding of FixedQueue::count_free (usize subtraction; the invariant
len at most limit keeps it from underflowing in the source). -/
def FixedQueue.count_free {T : Type} (q : FixedQueue T) : Nat :=
  q.limit - q.size

/-- Embedding of FixedQueue::push: append when under the limit, else
reject. -/
def FixedQueue.push {T : Type} (q : FixedQueue T) (v : T) : Bool × FixedQueue T :=
  if q.size < q.limit then (true, { q with data := q.data ++ [some v] })
  else (false, q)

/-- Embedding of FixedQueue::push_replace: push, popping the front first
when no slot is free. -/
def FixedQueue.push_replace {T : Type} (q : FixedQueue T) (v : T) : Bool × FixedQueue T :=
  if 0 < q.count_free then q.push v
  else ({ q with data := q.data.drop 1 } : FixedQueue T).push v

/-- In-place swap of two positions of a list (VecDeque::swap; both indices
are in range at the call site). -/
def list_swap {α : Type} (l : List α) (i j : Nat) : List α :=
  match l.get? i, l.get? j with
  | some a, some b => (l.set i b).set j a
  | _, _ => l

/-- Embedding of FixedQueue::take_if: find the first slot whose element
satisfies the predicate, take it (leaving none), swap the hole to the back
when more than one slot remains, and pop the back. -/
def FixedQueue.take_if {T : Type} (q : FixedQueue T) (predicate : T → Bool) :
    Option T × FixedQueue T :=
  match q.data.findIdx? (fun e => (e.map predicate).getD false) with
  | none => (none, q)
  | some pos =>
    let value := (q.data.getD pos none)
    let d1 := q.data.set pos none
    let d2 := if 1 < d1.length then list_swap d1 pos (d1.length - 1) else d1
    (value, { q with data := d2.dropLast })

/-- One operation of the FixedQueue interface, for reasoning about
arbitrary operation sequences. -/
inductive QOp (T : Type) where
  | push (v : T)
  | pushReplace (v : T)
  | takeIf (predicate : T → Bool)

/-- Apply one operation, discarding the returned value. -/
def apply_op {T : Type} (q : FixedQueue T) : QOp T → FixedQueue T
  | .push v => (q.push v).2
  | .pushReplace v => (q.push_replace v).2
  | .takeIf p => (q.take_if p).2

/-- Run an operation sequence from a freshly constructed queue. -/
def run_ops {T : Type} (limit : Nat) (ops : List (QOp T)) : FixedQueue T :=
  ops.foldl apply_op (FixedQueue.new T limit)

/-- The two wire bytes of the CRC of a byte sequence: low byte of the
accumulator first (little-endian placement, exactly what write_u16_be of
calc_crc_be puts on the wire). -/
def crc_le (X : List Nat) : List Nat :=
  [calc_crc_inner 0xFFFF X % 256, calc_crc_inner 0xFFFF X / 256]

lemma crc16_getD_lt (i : Nat) : CRC16.getD i 0 < 65536 := by
  have hall : ∀ x ∈ CRC16, x < 65536 := by decide
  rw [List.getD_eq_getElem?_getD]
  rcases h : CRC16[i]? with _ | x
  · simp
  · have hx := hall x (List.getElem?_mem h)
    simpa using hx

lemma crc_step_lt {crc : Nat} (h : crc < 65536) (b : Nat) : crc_step crc b < 65536 := by
  have h1 : crc >>> 8 < 65536 := by
    calc crc >>> 8 ≤ crc := by
          rw [Nat.shiftRight_eq_div_pow]; exact Nat.div_le_self _ _
      _ < 65536 := h
  have h2 := crc16_getD_lt ((crc ^^^ b) &&& 255)
  have hp : (65536 : Nat) = 2 ^ 16 := by norm_num
  have := Nat.xor_lt_two_pow (n := 16) (by rw [← hp]; exact h1) (by rw [← hp]; exact h2)
  rw [← hp] at this
  simpa [crc_step] using this

lemma calc_crc_inner_lt (bytes : List Nat) :
    ∀ {crc : Nat}, crc < 65536 → calc_crc_inner crc bytes < 65536 := by
  induction bytes with
  | nil => intro crc h; simpa [calc_crc_inner] using h
  | cons b rest ih =>
    intro crc h
    simpa [calc_crc_inner, List.foldl_cons] using ih (crc_step_lt h b)

lemma calc_crc_inner_append (c : Nat) (xs ys : List Nat) :
    calc_crc_inner c (xs ++ ys) = calc_crc_inner (calc_crc_inner c xs) ys := by
  simp [calc_crc_inner, List.foldl_append]

lemma nat_and_255 (x : Nat) : x &&& 255 = x % 256 := by
  simpa using @Nat.and_pow_two_sub_one_eq_mod x 8

lemma crc16_head : CRC16.getD 0 0 = 0 := rfl

lemma crc_residue_steps {A : Nat} (hA : A < 65536) :
    calc_crc_inner A [A % 256, A / 256] = 0 := by
  have hidx1 : (A ^^^ A % 256) &&& 255 = 0 := by
    rw [Nat.and_xor_distrib_right, nat_and_255, nat_and_255,
      Nat.mod_mod_of_dvd _ dvd_rfl, Nat.xor_self]
  have hshift : ∀ x : Nat, x >>> 8 = x / 256 := by
    intro x
    rw [Nat.shiftRight_eq_div_pow]
  have hstep1 : crc_step A (A % 256) = A / 256 := by
    rw [crc_step, hidx1, crc16_head, Nat.xor_zero, hshift]
  have hstep2 : crc_step (A / 256) (A / 256) = 0 := by
    rw [crc_step, Nat.xor_self, Nat.zero_and, crc16_head, Nat.xor_zero, hshift]
    omega
  show List.foldl crc_step A [A % 256, A / 256] = 0
  simp only [List.foldl_cons, List.foldl_nil, hstep1, hstep2]

lemma read_u8_eq_some (buf : List Nat) (pos : Nat) (h : pos < buf.length) :
    read_u8 buf pos = some (buf.getD pos 0, pos + 1) := by
  rcases hg : buf[pos]? with _ | b
  · rw [List.getElem?_eq_none_iff] at hg; omega
  · simp [read_u8, hg, List.getD_eq_getElem?_getD]

lemma read_u16_be_eq_some (buf : List Nat) (pos : Nat) (h : pos + 2 ≤ buf.length) :
    read_u16_be buf pos = some (buf.getD pos 0 * 256 + buf.getD (pos + 1) 0, pos + 2) := by
  simp [read_u16_be, read_u8_eq_some buf pos (by omega), read_u8_eq_some buf (pos + 1) (by omega)]

/-- C2: the CRC-16/Modbus residue property: updating the CRC register
(initial value 0xFFFF, table-driven step) over a byte sequence followed by
the two little-endian bytes of its own CRC yields 0; and read_crc accepts
(with the two stored bytes available) exactly when the CRC update over the
processed bytes (frame bytes followed by the stored CRC bytes) yields 0. -/
theorem crc_residue_and_read_crc_accepts :
    (∀ X : List Nat, calc_crc_inner 0xFFFF (X ++ crc_le X) = 0) ∧
    (∀ (buf : List Nat) (pos : Nat), pos + 2 ≤ buf.length →
      ((∃ c, read_crc buf pos = .ok (c, pos + 2)) ↔ calc_crc_be (buf.take (pos + 2)) = 0)) := by
  constructor
  · intro X
    rw [crc_le, calc_crc_inner_append]
    exact crc_residue_steps (calc_crc_inner_lt X (by norm_num))
  · intro buf pos h
    rw [read_crc, read_u16_be_eq_some buf pos h]
    rcases hc : calc_crc_be (buf.take (pos + 2)) == 0 with _ | _
    · simp only [hc, if_false]
      constructor
      · rintro ⟨c, hcon⟩; cases hcon
      · intro h0
        rw [h0] at hc
        simp at hc
    · simp only [hc, if_true]
      constructor
      · intro _; simpa using hc
      · intro _; exact ⟨_, rfl⟩

/-- Witness for the CRC claim: the RTU test vector 11 01 00 13 00 25 0E 84
exercises read_crc at position 6 with its hypothesis discharged. -/
theorem crc_residue_and_read_crc_accepts_witness :
    (6 + 2 ≤ ([0x11, 0x01, 0x00, 0x13, 0x00, 0x25, 0x0E, 0x84] : List Nat).length) ∧
    ((∃ c, read_crc [0x11, 0x01, 0x00, 0x13, 0x00, 0x25, 0x0E, 0x84] 6 = .ok (c, 6 + 2)) ↔
      calc_crc_be (([0x11, 0x01, 0x00, 0x13, 0x00, 0x25, 0x0E, 0x84] : List Nat).take (6 + 2)) = 0) :=
  ⟨by decide,
    crc_residue_and_read_crc_accepts.2 [0x11, 0x01, 0x00, 0x13, 0x00, 0x25, 0x0E, 0x84] 6
      (by decide)⟩

lemma read_u8_eq_none (buf : List Nat) (pos : Nat) (h : buf.length ≤ pos) :
    read_u8 buf pos = none := by
  simp [read_u8, List.getElem?_eq_none h]

lemma read_u16_be_eq_none (buf : List Nat) (pos : Nat) (h : buf.length < pos + 2) :
    read_u16_be buf pos = none := by
  rcases Nat.lt_or_ge pos buf.length with h1 | h1
  · simp [read_u16_be, read_u8_eq_some buf pos h1, read_u8_eq_none buf (pos + 1) (by omega)]
  · simp [read_u16_be, read_u8_eq_none buf pos h1]

lemma read_mbap_spec (buf : List Nat) :
    (buf.length < 7 → read_mbap buf 0 = .incomplete) ∧
    (7 ≤ buf.length →
      (read_mbap buf 0 = .err .invalidVersion ↔ buf.getD 2 0 * 256 + buf.getD 3 0 ≠ 0) ∧
      (read_mbap buf 0 = .err .invalidData ↔
        (buf.getD 2 0 * 256 + buf.getD 3 0 = 0 ∧
          (buf.getD 4 0 * 256 + buf.getD 5 0 < 2 ∨
            MAX_DATA_SIZE < buf.getD 4 0 * 256 + buf.getD 5 0))) ∧
      ((buf.getD 2 0 * 256 + buf.getD 3 0 = 0 ∧ 2 ≤ buf.getD 4 0 * 256 + buf.getD 5 0 ∧
          buf.getD 4 0 * 256 + buf.getD 5 0 ≤ MAX_DATA_SIZE) →
        read_mbap buf 0 =
          .ok ({ id := buf.getD 0 0 * 256 + buf.getD 1 0, proto := buf.getD 2 0 * 256 + buf.getD 3 0,
                 len := buf.getD 4 0 * 256 + buf.getD 5 0, slave := buf.getD 6 0 }, 7))) := by
  constructor
  · intro h
    by_cases h2 : buf.length < 2
    · simp [read_mbap, read_u16_be_eq_none buf 0 (by omega)]
    · by_cases h4 : buf.length < 4
      · simp [read_mbap, read_u16_be_eq_some buf 0 (by omega),
          read_u16_be_eq_none buf 2 (by omega)]
      · by_cases h6 : buf.length < 6
        · simp [read_mbap, read_u16_be_eq_some buf 0 (by omega),
            read_u16_be_eq_some buf 2 (by omega), read_u16_be_eq_none buf 4 (by omega)]
        · simp [read_mbap, read_u16_be_eq_some buf 0 (by omega),
            read_u16_be_eq_some buf 2 (by omega), read_u16_be_eq_some buf 4 (by omega),
            read_u8_eq_none buf 6 (by omega)]
  · intro h
    rcases buf with _ | ⟨b0, _ | ⟨b1, _ | ⟨b2, _ | ⟨b3, _ | ⟨b4, _ | ⟨b5, _ | ⟨b6, rest⟩⟩⟩⟩⟩⟩⟩ <;>
      simp only [List.length] at h <;> try omega
    simp only [read_mbap, read_u16_be, read_u8, List.getElem?_cons_zero,
      List.getElem?_cons_succ, List.getD_eq_getElem?_getD, Option.getD_some]
    by_cases hp : b2 * 256 + b3 ≠ 0
    · simp [hp]
    · by_cases hl : b4 * 256 + b5 < 2 ∨ MAX_DATA_SIZE < b4 * 256 + b5
      · refine ⟨?_, ?_, ?_⟩
        · simp [hp, hl]
        · simp [hp, hl]
          omega
        · intro hok
          exfalso
          rw [MAX_DATA_SIZE] at hl hok
          omega
      · refine ⟨?_, ?_, ?_⟩
        · simp [hp, hl]
        · simp [hp, hl]
          try omega
        · intro _
          simp [hp, hl]


/-- C5: MBAP header decode: with fewer than 7 bytes the decode is
incomplete whatever the bytes; with at least 7 bytes, a nonzero protocol
field gives InvalidVersion, otherwise a length field below 2 or above
MAX_DATA_SIZE gives InvalidData, and otherwise the parsed header is
returned with 7 bytes consumed. -/
theorem mbap_decode_characterization (buf : List Nat) :
    (buf.length < 7 → read_mbap buf 0 = .incomplete) ∧
    (7 ≤ buf.length →
      (read_mbap buf 0 = .err .invalidVersion ↔ buf.getD 2 0 * 256 + buf.getD 3 0 ≠ 0) ∧
      (read_mbap buf 0 = .err .invalidData ↔
        (buf.getD 2 0 * 256 + buf.getD 3 0 = 0 ∧
          (buf.getD 4 0 * 256 + buf.getD 5 0 < 2 ∨
            MAX_DATA_SIZE < buf.getD 4 0 * 256 + buf.getD 5 0))) ∧
      ((buf.getD 2 0 * 256 + buf.getD 3 0 = 0 ∧ 2 ≤ buf.getD 4 0 * 256 + buf.getD 5 0 ∧
          buf.getD 4 0 * 256 + buf.getD 5 0 ≤ MAX_DATA_SIZE) →
        read_mbap buf 0 =
          .ok ({ id := buf.getD 0 0 * 256 + buf.getD 1 0, proto := buf.getD 2 0 * 256 + buf.getD 3 0,
                 len := buf.getD 4 0 * 256 + buf.getD 5 0, slave := buf.getD 6 0 }, 7))) :=
  read_mbap_spec buf

/-- Witness for the MBAP claim at the TCP test vector header with both
hypothesis shapes discharged. -/
theorem mbap_decode_characterization_witness :
    (([0x00, 0x01] : List Nat).length < 7 → read_mbap [0x00, 0x01] 0 = .incomplete) ∧
    (7 ≤ ([0x00, 0x01, 0x00, 0x00, 0x00, 0x06, 0x11] : List Nat).length →
      read_mbap [0x00, 0x01, 0x00, 0x00, 0x00, 0x06, 0x11] 0 =
        .ok ({ id := 1, proto := 0, len := 6, slave := 0x11 }, 7)) :=
  ⟨(mbap_decode_characterization [0x00, 0x01]).1,
    fun h => ((mbap_decode_characterization _).2 h).2.2 (by decide)⟩

/-- C6: read-request count checks: with all five PDU bytes present,
functions 0x01/0x02 fail with InvalidData exactly when the big-endian
count is 0 or above MAX_NCOILS, functions 0x03/0x04 exactly when it is 0
or above MAX_NREGS; the boundary counts 2000 (0x01) and 125 (0x03) are
accepted. -/
theorem read_count_checks (a b n0 n1 : Nat) (rest : List Nat) :
    (read_pdu (1 :: a :: b :: n0 :: n1 :: rest) 0 = .err .invalidData ↔
      (n0 * 256 + n1 = 0 ∨ MAX_NCOILS < n0 * 256 + n1)) ∧
    (read_pdu (2 :: a :: b :: n0 :: n1 :: rest) 0 = .err .invalidData ↔
      (n0 * 256 + n1 = 0 ∨ MAX_NCOILS < n0 * 256 + n1)) ∧
    (read_pdu (3 :: a :: b :: n0 :: n1 :: rest) 0 = .err .invalidData ↔
      (n0 * 256 + n1 = 0 ∨ MAX_NREGS < n0 * 256 + n1)) ∧
    (read_pdu (4 :: a :: b :: n0 :: n1 :: rest) 0 = .err .invalidData ↔
      (n0 * 256 + n1 = 0 ∨ MAX_NREGS < n0 * 256 + n1)) ∧
    read_pdu [1, a, b, 7, 208] 0 = .ok (.readCoils (a * 256 + b) 2000, 5) ∧
    read_pdu [3, a, b, 0, 125] 0 = .ok (.readHoldingRegisters (a * 256 + b) 125, 5) := by
  refine ⟨?_, ?_, ?_, ?_, ?_, ?_⟩
  · by_cases hc : check_coils_count (n0 * 256 + n1)
    · simp [read_pdu, read_u8, read_u16_be, hc]
      rw [check_coils_count] at hc
      simp only [Bool.and_eq_true, decide_eq_true_eq] at hc
      simp only [MAX_NCOILS, MAX_NREGS] at hc ⊢
      omega
    · simp [read_pdu, read_u8, read_u16_be, hc]
      rw [check_coils_count] at hc
      simp only [Bool.and_eq_true, decide_eq_true_eq, not_and, not_le] at hc
      simp only [MAX_NCOILS, MAX_NREGS] at hc ⊢
      omega
  · by_cases hc : check_coils_count (n0 * 256 + n1)
    · simp [read_pdu, read_u8, read_u16_be, hc]
      rw [check_coils_count] at hc
      simp only [Bool.and_eq_true, decide_eq_true_eq] at hc
      simp only [MAX_NCOILS, MAX_NREGS] at hc ⊢
      omega
    · simp [read_pdu, read_u8, read_u16_be, hc]
      rw [check_coils_count] at hc
      simp only [Bool.and_eq_true, decide_eq_true_eq, not_and, not_le] at hc
      simp only [MAX_NCOILS, MAX_NREGS] at hc ⊢
      omega
  · by_cases hc : check_registers_count (n0 * 256 + n1)
    · simp [read_pdu, read_u8, read_u16_be, hc]
      rw [check_registers_count] at hc
      simp only [Bool.and_eq_true, decide_eq_true_eq] at hc
      simp only [MAX_NREGS] at hc ⊢
      omega
    · simp [read_pdu, read_u8, read_u16_be, hc]
      rw [check_registers_count] at hc
      simp only [Bool.and_eq_true, decide_eq_true_eq, not_and, not_le] at hc
      simp only [MAX_NREGS] at hc ⊢
      omega
  · by_cases hc : check_registers_count (n0 * 256 + n1)
    · simp [read_pdu, read_u8, read_u16_be, hc]
      rw [check_registers_count] at hc
      simp only [Bool.and_eq_true, decide_eq_true_eq] at hc
      simp only [MAX_NREGS] at hc ⊢
      omega
    · simp [read_pdu, read_u8, read_u16_be, hc]
      rw [check_registers_count] at hc
      simp only [Bool.and_eq_true, decide_eq_true_eq, not_and, not_le] at hc
      simp only [MAX_NREGS] at hc ⊢
      omega
  · have hc : check_coils_count (7 * 256 + 208) = true := by decide
    simp [read_pdu, read_u8, read_u16_be, hc]
    rfl
  · have hc : check_registers_count (0 * 256 + 125) = true := by decide
    simp [read_pdu, read_u8, read_u16_be, hc]

lemma swap_pairs_length (l : List Nat) : (swap_pairs l).length = l.length := by
  induction l using swap_pairs.induct with
  | case1 a b rest ih => simp [swap_pairs, ih]
  | case2 a => simp [swap_pairs]
  | case3 => simp [swap_pairs]

lemma is_enough_eq_some_iff {buf : List Nat} {pos n : Nat} {b : Bool} :
    is_enough buf pos n = some b ↔ (n ≤ buf.length - pos ∧ b = true) := by
  rw [is_enough, remaining]
  split <;> simp_all

/-- The structural facts claimed for every decoder-produced RequestPdu:
read requests carry counts within the legal ranges; the write-multiple
bodies have exactly the byte count their object count dictates. -/
def decoded_pdu_ok : RequestPdu → Prop
  | .readCoils _ nobjs => 1 ≤ nobjs ∧ nobjs ≤ MAX_NCOILS
  | .readDiscreteInputs _ nobjs => 1 ≤ nobjs ∧ nobjs ≤ MAX_NCOILS
  | .readHoldingRegisters _ nobjs => 1 ≤ nobjs ∧ nobjs ≤ MAX_NREGS
  | .readInputRegisters _ nobjs => 1 ≤ nobjs ∧ nobjs ≤ MAX_NREGS
  | .writeMultipleCoils _ nobjs data =>
      1 ≤ nobjs ∧ nobjs ≤ MAX_NCOILS ∧ data.length = (nobjs + 7) / 8
  | .writeMultipleRegisters _ nobjs data =>
      1 ≤ nobjs ∧ nobjs ≤ MAX_NREGS ∧ data.length = 2 * nobjs
  | _ => True

/-- C4: every PDU the decoder returns satisfies the structural invariant,
and a write-multiple request whose nbytes field disagrees with the byte
count implied by its object count is rejected with InvalidData once all
header bytes are present. -/
theorem decoder_pdu_structural_invariant :
    (∀ (buf : List Nat) (pos : Nat) (f : RequestPdu) (k : Nat),
      read_pdu buf pos = .ok (f, k) → decoded_pdu_ok f) ∧
    (∀ (a b n0 n1 nb : Nat) (rest : List Nat),
      1 ≤ n0 * 256 + n1 → n0 * 256 + n1 ≤ MAX_NCOILS → nb ≠ (n0 * 256 + n1 + 7) / 8 →
      read_pdu (15 :: a :: b :: n0 :: n1 :: nb :: rest) 0 = .err .invalidData) ∧
    (∀ (a b n0 n1 nb : Nat) (rest : List Nat),
      1 ≤ n0 * 256 + n1 → n0 * 256 + n1 ≤ MAX_NREGS → nb ≠ 2 * (n0 * 256 + n1) →
      read_pdu (16 :: a :: b :: n0 :: n1 :: nb :: rest) 0 = .err .invalidData) := by
  refine ⟨?_, ?_, ?_⟩
  · intro buf pos f k h
    rw [read_pdu] at h
    repeat' split at h
    all_goals
      simp_all only [decoded_pdu_ok, check_coils_count, check_registers_count,
        is_enough_eq_some_iff, read_bytes, get_coils_len, get_registers_len,
        swap_pairs_length, MAX_NCOILS, MAX_NREGS, Bool.and_eq_true, decide_eq_true_eq,
        DResult.ok.injEq, Prod.mk.injEq, List.length_take, List.length_drop,
        beq_iff_eq, Bool.or_eq_true, reduceCtorEq]
    all_goals obtain ⟨hf, hk⟩ := h
    all_goals subst hf
    all_goals simp_all [swap_pairs_length]
    all_goals try omega
  · intro a b n0 n1 nb rest h1 h2 h3
    have hc : check_coils_count (n0 * 256 + n1) = true := by
      simp only [check_coils_count, MAX_NCOILS, MAX_NREGS] at h2 ⊢
      simp only [Bool.and_eq_true, decide_eq_true_eq]
      omega
    have hm : (get_coils_len (n0 * 256 + n1) == nb) = false := by
      simp only [get_coils_len, MAX_NCOILS, MAX_NREGS, beq_eq_false_iff_ne, ne_eq]
      rw [if_pos (by omega)]
      omega
    simp [read_pdu, read_u8, read_u16_be, hc, hm]
  · intro a b n0 n1 nb rest h1 h2 h3
    have hc : check_registers_count (n0 * 256 + n1) = true := by
      simp only [check_registers_count, MAX_NREGS] at h2 ⊢
      simp only [Bool.and_eq_true, decide_eq_true_eq]
      omega
    have hm : (get_registers_len (n0 * 256 + n1) == nb) = false := by
      simp only [get_registers_len, MAX_NREGS, beq_eq_false_iff_ne, ne_eq] at h2 ⊢
      omega
    simp [read_pdu, read_u8, read_u16_be, hc, hm]

/-- Witness for C4: the spec test vector for function 0x10 with a
mismatching nbytes field (3 instead of 4) is rejected, and the correct
vector for 0x0F produces a structurally sound PDU. -/
theorem decoder_pdu_structural_invariant_witness :
    read_pdu [0x10, 0x00, 0x01, 0x00, 0x02, 0x03, 0x00, 0xFF, 0xFF, 0x00] 0 =
        .err .invalidData ∧
    decoded_pdu_ok (.writeMultipleCoils 0x13 10 [0xCD, 0x01]) :=
  ⟨decoder_pdu_structural_invariant.2.2 0 1 0 2 3 [0x00, 0xFF, 0xFF, 0x00] (by decide) (by decide)
      (by decide),
    decoder_pdu_structural_invariant.1 [0x0F, 0x00, 0x13, 0x00, 0x0A, 0x02, 0xCD, 0x01] 0
      (.writeMultipleCoils 0x13 10 [0xCD, 0x01]) 8 (by decide)⟩

/-- C3: input-buffer discipline of SlaveCodec::decode, for every input and
both modes and flow types: on success the buffer is advanced by exactly
the processed count, on error it is cleared, on need-more-bytes it is left
untouched in Stream flow and cleared in Packet flow. -/
theorem decode_buffer_discipline (mode : CodecMode) (flow : CodecFlowType) (buf : List Nat) :
    (∀ f : RequestFrame, (decode mode flow buf).1 = .ok f →
      ∃ k, parse_frame mode buf = .ok (f, k) ∧ (decode mode flow buf).2 = buf.drop k) ∧
    (∀ e : Error, (decode mode flow buf).1 = .err e → (decode mode flow buf).2 = []) ∧
    ((decode mode flow buf).1 = .incomplete →
      (decode mode flow buf).2 = if flow = .stream then buf else []) := by
  rcases hp : parse_frame mode buf with e | _ | ⟨f0, k0⟩
  · simp [decode, advance_buffer, hp]
  · rcases flow <;> simp [decode, advance_buffer, hp, CodecFlowType.is_packet]
  · refine ⟨?_, ?_, ?_⟩
    · intro f hf
      simp only [decode, hp] at hf ⊢
      exact ⟨k0, by simp_all [advance_buffer]⟩
    · intro e he
      simp [decode, hp] at he
    · intro hinc
      simp [decode, hp] at hinc

/-- Witness for C3: the RTU test vector decodes to a frame and the buffer
is fully consumed. -/
theorem decode_buffer_discipline_witness :
    ∃ k, parse_frame .rtu [0x11, 0x01, 0x00, 0x13, 0x00, 0x25, 0x0E, 0x84] =
        .ok ({ id := 0, slave := 0x11, pdu := .readCoils 0x13 37 }, k) ∧
      (decode .rtu .stream [0x11, 0x01, 0x00, 0x13, 0x00, 0x25, 0x0E, 0x84]).2 =
        ([0x11, 0x01, 0x00, 0x13, 0x00, 0x25, 0x0E, 0x84] : List Nat).drop k :=
  (decode_buffer_discipline .rtu .stream [0x11, 0x01, 0x00, 0x13, 0x00, 0x25, 0x0E, 0x84]).1
    { id := 0, slave := 0x11, pdu := .readCoils 0x13 37 } (by decide)

lemma overwrite_length (dst content : List Nat) : (overwrite dst content).length = dst.length := by
  simp [overwrite]
  omega

/-- C8 counterexample: the claim as stated is false because
DataStorage::extend has no capacity check: extending a full buffer of
MAX_DATA_SIZE bytes by one byte yields length MAX_DATA_SIZE + 1 (SmallVec
spills to the heap rather than refusing). -/
theorem data_storage_extend_breaks_bound :
    DataStorage.raw_empty MAX_DATA_SIZE =
      some { buffer := List.replicate MAX_DATA_SIZE 0 } ∧
    ¬ (({ buffer := List.replicate MAX_DATA_SIZE 0 } : DataStorage).extend [0]).size ≤
        MAX_DATA_SIZE := by
  constructor
  · decide
  · decide

/-- C8 amended: every constructor establishes the capacity bound, the
in-place mutators preserve the length exactly, and extend preserves the
bound precisely when the combined length stays within MAX_DATA_SIZE. -/
theorem data_storage_capacity_invariant :
    (∀ (bytes : List Nat) (d : DataStorage),
      DataStorage.raw bytes = some d → d.size ≤ MAX_DATA_SIZE) ∧
    (∀ (n : Nat) (d : DataStorage),
      DataStorage.raw_empty n = some d → d.size ≤ MAX_DATA_SIZE) ∧
    (∀ (n : Nat) (content : List Nat) (d : DataStorage),
      DataStorage.coils n content = some d → d.size ≤ MAX_DATA_SIZE) ∧
    (∀ (n : Nat) (content : List Nat) (d : DataStorage),
      DataStorage.registers n content = some d → d.size ≤ MAX_DATA_SIZE) ∧
    (∀ (d : DataStorage) (idx v : Nat), ((d.set_u8 idx v).2).size = d.size) ∧
    (∀ (d : DataStorage) (idx v : Nat) (d2 : DataStorage),
      d.set_u16 idx v = some d2 → d2.size = d.size) ∧
    (∀ (d : DataStorage) (idx : Nat) (b : Bool) (d2 : DataStorage),
      d.set_bit idx b = some d2 → d2.size = d.size) ∧
    (∀ (d : DataStorage) (slice : List Nat),
      (d.extend slice).size ≤ MAX_DATA_SIZE ↔ d.size + slice.length ≤ MAX_DATA_SIZE) := by
  refine ⟨?_, ?_, ?_, ?_, ?_, ?_, ?_, ?_⟩
  · intro bytes d h
    rw [DataStorage.raw] at h
    split at h
    · cases h; simpa [DataStorage.size]
    · cases h
  · intro n d h
    rw [DataStorage.raw_empty] at h
    split at h
    · cases h; simpa [DataStorage.size]
    · cases h
  · intro n content d h
    rw [DataStorage.coils, DataStorage.coils_empty] at h
    split at h
    next hc =>
      simp only [Option.map_some', Option.some.injEq] at h
      subst h
      simp only [DataStorage.size, overwrite_length, List.length_replicate]
      rw [check_coils_count] at hc
      simp only [Bool.and_eq_true, decide_eq_true_eq, MAX_NCOILS, MAX_NREGS] at hc
      rw [get_coils_len, if_pos (by omega), MAX_DATA_SIZE]
      omega
    next => cases h
  · intro n content d h
    rw [DataStorage.registers, DataStorage.registers_empty] at h
    split at h
    next hc =>
      simp only [Option.map_some', Option.some.injEq] at h
      subst h
      simp only [DataStorage.size, overwrite_length, List.length_replicate]
      rw [check_registers_count] at hc
      simp only [Bool.and_eq_true, decide_eq_true_eq, MAX_NREGS] at hc
      rw [get_registers_len, MAX_DATA_SIZE]
      omega
    next => cases h
  · intro d idx v
    rw [DataStorage.set_u8]
    split <;> simp [DataStorage.size]
  · intro d idx v d2 h
    rw [DataStorage.set_u16] at h
    split at h
    · cases h; simp [DataStorage.size]
    · cases h
  · intro d idx b d2 h
    rw [DataStorage.set_bit] at h
    split at h
    · cases h; simp [DataStorage.size]
    · cases h
  · intro d slice
    simp [DataStorage.extend, DataStorage.size]

/-- Witness for the amended C8 at concrete inputs. -/
theorem data_storage_capacity_invariant_witness :
    DataStorage.size { buffer := [1, 2, 3] } ≤ MAX_DATA_SIZE ∧
    DataStorage.size { buffer := [9, 0] } = DataStorage.size { buffer := [1, 2] } :=
  ⟨data_storage_capacity_invariant.1 [1, 2, 3] { buffer := [1, 2, 3] } (by decide),
    data_storage_capacity_invariant.2.2.2.2.2.1 { buffer := [1, 2] } 0 9 { buffer := [9, 0] }
      (by decide)⟩

lemma list_swap_length {α : Type} (l : List α) (i j : Nat) :
    (list_swap l i j).length = l.length := by
  rw [list_swap]
  split <;> simp

lemma take_if_limit {T : Type} (q : FixedQueue T) (p : T → Bool) :
    ((q.take_if p).2).limit = q.limit := by
  rw [FixedQueue.take_if]
  split <;> rfl

lemma take_if_spec {T : Type} (q : FixedQueue T) (p : T → Bool) :
    ((q.take_if p).1 = none ∧ (q.take_if p).2 = q) ∨
    (∃ x, (q.take_if p).1 = some x ∧ (q.take_if p).2.size + 1 = q.size) := by
  rw [FixedQueue.take_if]
  rcases hf : q.data.findIdx? (fun e => (e.map p).getD false) with _ | pos
  · rw [hf]
    left; exact ⟨rfl, rfl⟩
  · rw [hf]
    right
    have h2 := (List.findIdx?_eq_some_iff_findIdx_eq ..).mp hf
    have hlt : pos < q.data.length := h2.1
    have hp : ((q.data[pos]).map p).getD false = true := by
      have h3 := @List.findIdx_getElem _ (fun e => (e.map p).getD false) q.data (by omega)
      simp only [h2.2] at h3
      exact h3
    rcases hx : q.data[pos] with _ | x
    · rw [hx] at hp; simp at hp
    · have hval : q.data.getD pos none = some x := by
        rw [List.getD_eq_getElem q.data none hlt, hx]
      have hd2 : (if 1 < (q.data.set pos none).length then
          list_swap (q.data.set pos none) pos ((q.data.set pos none).length - 1)
          else (q.data.set pos none)).length = q.data.length := by
        split <;> simp [list_swap_length]
      refine ⟨x, by simp [List.getD_eq_getElem?_getD, List.getElem?_eq_getElem hlt, hx], ?_⟩
      simp only [FixedQueue.size, List.length_dropLast, hd2]
      omega

lemma apply_op_wf {T : Type} (q : FixedQueue T) (op : QOp T) (h : q.size ≤ q.limit) :
    (apply_op q op).size ≤ (apply_op q op).limit ∧ (apply_op q op).limit = q.limit := by
  rcases op with v | v | p
  · rw [apply_op, FixedQueue.push]
    split <;> simp_all [FixedQueue.size] <;> omega
  · rw [apply_op, FixedQueue.push_replace]
    split
    · rw [FixedQueue.push]
      split <;> simp_all [FixedQueue.size, FixedQueue.count_free] <;> omega
    · rw [FixedQueue.push]
      split <;> simp_all [FixedQueue.size, FixedQueue.count_free] <;> omega
  · rw [apply_op]
    have hl := take_if_limit q p
    rcases take_if_spec q p with ⟨_, h2⟩ | ⟨x, _, h2⟩
    · rw [h2]
      exact ⟨h, rfl⟩
    · exact ⟨by omega, hl⟩

lemma run_ops_wf {T : Type} (ops : List (QOp T)) :
    ∀ q : FixedQueue T, q.size ≤ q.limit →
      (ops.foldl apply_op q).size ≤ (ops.foldl apply_op q).limit ∧
      (ops.foldl apply_op q).limit = q.limit := by
  induction ops with
  | nil => intro q h; exact ⟨h, rfl⟩
  | cons op rest ih =>
    intro q h
    rw [List.foldl_cons]
    have step := apply_op_wf q op h
    have hrec := ih (apply_op q op) step.1
    exact ⟨hrec.1, hrec.2.trans step.2⟩

/-- C9: FixedQueue invariants over every operation sequence from a fresh
queue: the free count complements the length to the limit, push_replace
never grows the queue beyond the limit, and take_if removes exactly one
element when it returns a value and nothing otherwise. -/
theorem fixed_queue_invariants {T : Type} (limit : Nat) (ops : List (QOp T)) :
    (run_ops limit ops).size + (run_ops limit ops).count_free = limit ∧
    (∀ v : T, ((run_ops limit ops).push_replace v).2.size ≤ limit) ∧
    (∀ p : T → Bool,
      (((run_ops limit ops).take_if p).1 = none →
        ((run_ops limit ops).take_if p).2 = run_ops limit ops) ∧
      (∀ x : T, ((run_ops limit ops).take_if p).1 = some x →
        ((run_ops limit ops).take_if p).2.size + 1 = (run_ops limit ops).size)) := by
  have hw := run_ops_wf ops (FixedQueue.new T limit)
    (by simp [FixedQueue.new, FixedQueue.size])
  rw [show (FixedQueue.new T limit).limit = limit from rfl] at hw
  refine ⟨?_, ?_, ?_⟩
  · rw [FixedQueue.count_free, run_ops] at *
    omega
  · intro v
    have := apply_op_wf (run_ops limit ops) (.pushReplace v) (by rw [run_ops]; omega)
    rw [apply_op] at this
    rw [run_ops] at *
    omega
  · intro p
    rcases take_if_spec (run_ops limit ops) p with ⟨h1, h2⟩ | ⟨x, h1, h2⟩
    · exact ⟨fun _ => h2, fun y hy => absurd (h1.symm.trans hy) (by simp)⟩
    · exact ⟨fun hn => absurd (h1.symm.trans hn) (by simp), fun _ _ => h2⟩

/-- Witness for C9: a queue of limit 2 holding one element gives up that
element to take_if, shrinking by exactly one. -/
theorem fixed_queue_invariants_witness :
    ((run_ops 2 [QOp.push 5]).take_if (fun x => x == 5)).2.size + 1 =
      (run_ops 2 [QOp.push 5]).size :=
  ((fixed_queue_invariants 2 [QOp.push 5]).2.2 (fun x => x == 5)).2 5 rfl

/-- Encodable response PDUs: the source panics on Raw (unreachable arm of
write_pdu) and asserts even data length for register responses. -/
def ResponsePdu.encodable : ResponsePdu → Prop
  | .raw _ _ => False
  | .readHoldingRegisters _ data => data.length % 2 = 0
  | .readInputRegisters _ data => data.length % 2 = 0
  | _ => True

lemma write_u8_appends {ctx : WriteCtx} (v : Nat) (h : ctx.out.length < ctx.cap) :
    ctx.write_u8 v = some { cap := ctx.cap, out := ctx.out ++ [v] } := by
  simp [WriteCtx.write_u8, h]

lemma write_u16_be_appends {ctx : WriteCtx} (v : Nat) (h : ctx.out.length + 2 ≤ ctx.cap) :
    ctx.write_u16_be v = some { cap := ctx.cap, out := ctx.out ++ [v / 256 % 256, v % 256] } := by
  rw [WriteCtx.write_u16_be, write_u8_appends _ (by omega)]
  rw [show ctx.out ++ [v / 256 % 256, v % 256] =
    (ctx.out ++ [v / 256 % 256]) ++ [v % 256] by simp]
  exact write_u8_appends _ (by simp; omega)

lemma write_bytes_appends (bytes : List Nat) :
    ∀ ctx : WriteCtx, ctx.out.length + bytes.length ≤ ctx.cap →
      ctx.write_bytes bytes = some { cap := ctx.cap, out := ctx.out ++ bytes } := by
  induction bytes with
  | nil => intro ctx h; simp [WriteCtx.write_bytes]
  | cons b rest ih =>
    intro ctx h
    rw [WriteCtx.write_bytes, write_u8_appends b (by simp at h; omega)]
    show WriteCtx.write_bytes { cap := ctx.cap, out := ctx.out ++ [b] } rest = _
    rw [ih { cap := ctx.cap, out := ctx.out ++ [b] } (by simp at h ⊢; omega)]
    simp

lemma write_data_u16_be_appends {ctx : WriteCtx} (values : List Nat)
    (heven : values.length % 2 = 0) (h : ctx.out.length + values.length ≤ ctx.cap) :
    ctx.write_data_u16_be values =
      some { cap := ctx.cap, out := ctx.out ++ swap_pairs values } := by
  rw [WriteCtx.write_data_u16_be, if_pos heven]
  exact write_bytes_appends (swap_pairs values) ctx (by rw [swap_pairs_length]; exact h)

lemma is_enough_of_le {ctx : WriteCtx} {size : Nat} (h : ctx.out.length + size ≤ ctx.cap) :
    ctx.is_enough size = some true := by
  rw [WriteCtx.is_enough, if_pos (by omega)]

/-- write_pdu appends exactly pdu.len bytes for every encodable PDU, given
the capacity the encoder reserves. -/
lemma write_pdu_appends (pdu : ResponsePdu) (ctx : WriteCtx) (he : pdu.encodable)
    (hcap : ctx.out.length + pdu.len ≤ ctx.cap) :
    ∃ extra : List Nat, write_pdu ctx pdu = some { cap := ctx.cap, out := ctx.out ++ extra } ∧
      extra.length = pdu.len := by
  rcases pdu with ⟨n, data⟩ | ⟨n, data⟩ | ⟨n, data⟩ | ⟨n, data⟩ | ⟨a, v⟩ | ⟨a, v⟩ | ⟨a, n⟩ |
    ⟨a, n⟩ | ⟨m, data⟩ | ⟨fn, data⟩ | ⟨fn, code⟩
  · rw [ResponsePdu.len] at hcap
    refine ⟨0x1 :: data.length % 256 :: data, ?_, by simp [ResponsePdu.len]; omega⟩
    rw [write_pdu, is_enough_of_le (by omega), Option.some_bind,
      write_u8_appends _ (by omega), Option.some_bind,
      write_u8_appends _ (by simp; omega), Option.some_bind,
      write_bytes_appends data _ (by simp; omega)]
    simp
  · rw [ResponsePdu.len] at hcap
    refine ⟨0x2 :: data.length % 256 :: data, ?_, by simp [ResponsePdu.len]; omega⟩
    rw [write_pdu, is_enough_of_le (by omega), Option.some_bind,
      write_u8_appends _ (by omega), Option.some_bind,
      write_u8_appends _ (by simp; omega), Option.some_bind,
      write_bytes_appends data _ (by simp; omega)]
    simp
  · rw [ResponsePdu.len] at hcap
    rw [ResponsePdu.encodable] at he
    refine ⟨0x3 :: data.length % 256 :: swap_pairs data, ?_,
      by simp [ResponsePdu.len, swap_pairs_length]; omega⟩
    rw [write_pdu, is_enough_of_le (by omega), Option.some_bind,
      write_u8_appends _ (by omega), Option.some_bind,
      write_u8_appends _ (by simp; omega), Option.some_bind,
      write_data_u16_be_appends data he (by simp; omega)]
    simp
  · rw [ResponsePdu.len] at hcap
    rw [ResponsePdu.encodable] at he
    refine ⟨0x4 :: data.length % 256 :: swap_pairs data, ?_,
      by simp [ResponsePdu.len, swap_pairs_length]; omega⟩
    rw [write_pdu, is_enough_of_le (by omega), Option.some_bind,
      write_u8_appends _ (by omega), Option.some_bind,
      write_u8_appends _ (by simp; omega), Option.some_bind,
      write_data_u16_be_appends data he (by simp; omega)]
    simp
  · rw [ResponsePdu.len] at hcap
    refine ⟨[0x5, a / 256 % 256, a % 256, coil_to_raw v / 256 % 256, coil_to_raw v % 256], ?_,
      by simp [ResponsePdu.len]⟩
    rw [write_pdu, is_enough_of_le (by omega), Option.some_bind,
      write_u8_appends _ (by omega), Option.some_bind,
      write_u16_be_appends _ (by simp; omega), Option.some_bind,
      write_u16_be_appends _ (by simp; omega)]
    simp
  · rw [ResponsePdu.len] at hcap
    refine ⟨[0x6, a / 256 % 256, a % 256, v / 256 % 256, v % 256], ?_,
      by simp [ResponsePdu.len]⟩
    rw [write_pdu, is_enough_of_le (by omega), Option.some_bind,
      write_u8_appends _ (by omega), Option.some_bind,
      write_u16_be_appends _ (by simp; omega), Option.some_bind,
      write_u16_be_appends _ (by simp; omega)]
    simp
  · rw [ResponsePdu.len] at hcap
    refine ⟨[0xF, a / 256 % 256, a % 256, n / 256 % 256, n % 256], ?_,
      by simp [ResponsePdu.len]⟩
    rw [write_pdu, is_enough_of_le (by omega), Option.some_bind,
      write_u8_appends _ (by omega), Option.some_bind,
      write_u16_be_appends _ (by simp; omega), Option.some_bind,
      write_u16_be_appends _ (by simp; omega)]
    simp
  · rw [ResponsePdu.len] at hcap
    refine ⟨[0x10, a / 256 % 256, a % 256, n / 256 % 256, n % 256], ?_,
      by simp [ResponsePdu.len]⟩
    rw [write_pdu, is_enough_of_le (by omega), Option.some_bind,
      write_u8_appends _ (by omega), Option.some_bind,
      write_u16_be_appends _ (by simp; omega), Option.some_bind,
      write_u16_be_appends _ (by simp; omega)]
    simp
  · rw [ResponsePdu.len] at hcap
    refine ⟨0x2b :: m :: data, ?_, by simp [ResponsePdu.len]; omega⟩
    rw [write_pdu, is_enough_of_le (by omega), Option.some_bind,
      write_u8_appends _ (by omega), Option.some_bind,
      write_u8_appends _ (by simp; omega)]
    simp only [Option.map_some', WriteCtx.write_bytes_lossy]
    simp only [Option.some.injEq, WriteCtx.mk.injEq, true_and]
    rw [List.take_of_length_le (by simp; omega)]
    simp
  · exact absurd he (by rw [ResponsePdu.encodable]; exact not_false)
  · rw [ResponsePdu.len] at hcap
    refine ⟨[fn ||| 0x80, code.toU8], ?_, by simp [ResponsePdu.len]⟩
    rw [write_pdu, is_enough_of_le (by omega), Option.some_bind,
      write_u8_appends _ (by omega), Option.some_bind,
      write_u8_appends _ (by simp; omega)]
    simp

/-- C7 counterexample: the claim quantifies over every ResponseFrame, but
encoding a Raw response hits the unreachable arm of write_pdu (a panic in
the source, none in the embedding), so no output of the stated size is
produced. -/
theorem encode_raw_produces_nothing :
    encode .net { id := 0, slave := 1, pdu := .raw 0x99 [] } = none := rfl

/-- C7 amended: for every ResponseFrame whose PDU is encodable (not Raw,
with even register data), RTU encode emits exactly pdu.len + 3 bytes and
Net encode exactly pdu.len + 7 bytes, with the MBAP protocol field written
as 0 and the length field as pdu.len + 1 (exact whenever pdu.len + 1 fits
in a u16, which the data-capacity invariant guarantees). -/
theorem encoder_output_shape :
    (∀ frame : ResponseFrame, frame.pdu.encodable →
      ∃ out, encode .rtu frame = some out ∧ out.length = frame.pdu.len + 3) ∧
    (∀ frame : ResponseFrame, frame.pdu.encodable →
      ∃ out, encode .net frame = some out ∧ out.length = frame.pdu.len + 7 ∧
        out[2]? = some 0 ∧ out[3]? = some 0 ∧
        (frame.pdu.len + 1 < 65536 →
          out[4]? = some ((frame.pdu.len + 1) / 256) ∧
          out[5]? = some ((frame.pdu.len + 1) % 256))) := by
  constructor
  · intro frame he
    rw [encode, write_rtu_frame,
      write_u8_appends frame.slave (by simp)]
    rw [Option.some_bind]
    obtain ⟨extra, hw, hlen⟩ := write_pdu_appends frame.pdu
      { cap := frame.pdu.len + 3, out := [] ++ [frame.slave] } he (by simp; omega)
    rw [hw, Option.some_bind, write_crc, write_u16_be_appends _ (by simp [hlen])]
    refine ⟨_, rfl, ?_⟩
    simp [hlen]
  · intro frame he
    rw [encode, write_net_frame, write_mbap,
      write_u16_be_appends frame.id (by simp)]
    rw [Option.some_bind, write_u16_be_appends 0 (by simp)]
    rw [Option.some_bind, write_u16_be_appends ((frame.pdu.len % 65536 + 1) % 65536)
      (by simp)]
    rw [Option.some_bind, write_u8_appends frame.slave (by simp)]
    rw [Option.some_bind]
    obtain ⟨extra, hw, hlen⟩ := write_pdu_appends frame.pdu
      { cap := frame.pdu.len + 7,
        out := [] ++ [frame.id / 256 % 256, frame.id % 256] ++ [0 / 256 % 256, 0 % 256] ++
          [(frame.pdu.len % 65536 + 1) % 65536 / 256 % 256,
            (frame.pdu.len % 65536 + 1) % 65536 % 256] ++ [frame.slave] } he (by simp; omega)
    rw [hw]
    refine ⟨_, rfl, ?_, ?_, ?_, ?_⟩
    · simp [hlen]
      try omega
    · simp
    · simp
    · intro hfit
      have h1 : frame.pdu.len % 65536 = frame.pdu.len := Nat.mod_eq_of_lt (by omega)
      have h2 : (frame.pdu.len + 1) % 65536 = frame.pdu.len + 1 := Nat.mod_eq_of_lt (by omega)
      have h3 : (frame.pdu.len + 1) / 256 % 256 = (frame.pdu.len + 1) / 256 :=
        Nat.mod_eq_of_lt (by omega)
      constructor
      · simp [h1, h2, h3]
      · simp [h1, h2, Nat.mod_mod_of_dvd _ dvd_rfl]

/-- Witness for the amended C7 at the spec exception-encode vector. -/
theorem encoder_output_shape_witness :
    ∃ out, encode .net { id := 1, slave := 1, pdu := .exception 0x03 .illegalFunction } =
        some out ∧
      out.length = (ResponsePdu.exception 0x03 Code.illegalFunction).len + 7 ∧
      out[2]? = some 0 ∧ out[3]? = some 0 ∧
      ((ResponsePdu.exception 0x03 Code.illegalFunction).len + 1 < 65536 →
        out[4]? = some (((ResponsePdu.exception 0x03 Code.illegalFunction).len + 1) / 256) ∧
        out[5]? = some (((ResponsePdu.exception 0x03 Code.illegalFunction).len + 1) % 256)) :=
  encoder_output_shape.2 { id := 1, slave := 1, pdu := .exception 0x03 .illegalFunction }
    (by exact trivial)

lemma read_u8_some_inv {buf : List Nat} {pos v p : Nat} (h : read_u8 buf pos = some (v, p)) :
    p = pos + 1 ∧ buf[pos]? = some v := by
  rw [read_u8] at h
  rcases hg : buf[pos]? with _ | b <;> rw [hg] at h <;> simp_all

lemma read_u8_some_lt {buf : List Nat} {pos v p : Nat} (h : read_u8 buf pos = some (v, p)) :
    pos < buf.length := by
  by_contra hc
  rw [read_u8_eq_none buf pos (by omega)] at h
  cases h

lemma read_u16_be_some_inv {buf : List Nat} {pos v p : Nat}
    (h : read_u16_be buf pos = some (v, p)) : p = pos + 2 ∧ pos + 2 ≤ buf.length := by
  rw [read_u16_be] at h
  rcases h8 : read_u8 buf pos with _ | ⟨hi, p1⟩ <;> rw [h8] at h <;> dsimp only at h
  · cases h
  · rcases h9 : read_u8 buf p1 with _ | ⟨lo, p2⟩ <;> rw [h9] at h <;> dsimp only at h
    · cases h
    · obtain ⟨hp1, _⟩ := read_u8_some_inv h8
      obtain ⟨hp2, _⟩ := read_u8_some_inv h9
      have := read_u8_some_lt h9
      simp only [Option.some.injEq, Prod.mk.injEq] at h
      omega

lemma read_u8_congr {b1 b2 : List Nat} (p : Nat) (h : b1[p]? = b2[p]?) :
    read_u8 b1 p = read_u8 b2 p := by
  rw [read_u8, read_u8, h]

lemma read_u16_be_congr {b1 b2 : List Nat} (p : Nat) (h1 : b1[p]? = b2[p]?)
    (h2 : b1[p + 1]? = b2[p + 1]?) : read_u16_be b1 p = read_u16_be b2 p := by
  rw [read_u16_be, read_u16_be, read_u8_congr p h1]
  cases hf : read_u8 b2 p with
  | none => rfl
  | some t =>
    obtain ⟨v, p1⟩ := t
    obtain ⟨hp, _⟩ := read_u8_some_inv hf
    subst hp
    dsimp only
    rw [read_u8_congr (p + 1) h2]

lemma drop_eq_of_agree {b1 b2 : List Nat} {p : Nat} (hlen : b1.length = b2.length)
    (hag : ∀ i, p ≤ i → b1[i]? = b2[i]?) : b1.drop p = b2.drop p :=
  have _hl := hlen
  List.ext_getElem? fun i => by
    rw [List.getElem?_drop, List.getElem?_drop]
    exact hag (p + i) (by omega)

lemma read_bytes_congr {b1 b2 : List Nat} {p n : Nat} (hlen : b1.length = b2.length)
    (hag : ∀ i, p ≤ i → b1[i]? = b2[i]?) : read_bytes b1 p n = read_bytes b2 p n := by
  rw [read_bytes, read_bytes, drop_eq_of_agree hlen hag]

/-- The PDU parser looks only at the buffer length and the bytes from the
current position on: two buffers of the same length agreeing from pos give
the same parse. -/
lemma read_pdu_congr {b1 b2 : List Nat} (pos : Nat) (hlen : b1.length = b2.length)
    (hag : ∀ i, pos ≤ i → b1[i]? = b2[i]?) :
    read_pdu b1 pos = read_pdu b2 pos := by
  have e16 : ∀ p, pos ≤ p → read_u16_be b1 p = read_u16_be b2 p := fun p hp =>
    read_u16_be_congr p (hag p hp) (hag (p + 1) (by omega))
  have erem : ∀ p, remaining b1 p = remaining b2 p := fun p => by
    rw [remaining, remaining, hlen]
  have een : ∀ p n, is_enough b1 p n = is_enough b2 p n := fun p n => by
    rw [is_enough, is_enough, erem]
  have eby : ∀ p n, pos ≤ p → read_bytes b1 p n = read_bytes b2 p n := fun p n hp =>
    read_bytes_congr hlen (fun i hi => hag i (le_trans hp hi))
  have h8 := read_u8_congr pos (hag pos le_rfl)
  cases hf : read_u8 b2 pos with
  | none => rw [read_pdu, read_pdu, h8, hf]
  | some t =>
    obtain ⟨func, p0⟩ := t
    obtain ⟨hp0, _⟩ := read_u8_some_inv hf
    subst hp0
    have step2 : ∀ (mk : Nat → Nat → Nat → DResult (RequestPdu × Nat)),
        (match read_u16_be b1 (pos + 1) with
         | none => DResult.incomplete
         | some (a, p1) =>
           match read_u16_be b1 p1 with
           | none => DResult.incomplete
           | some (n, p2) => mk a n p2) =
        (match read_u16_be b2 (pos + 1) with
         | none => DResult.incomplete
         | some (a, p1) =>
           match read_u16_be b2 p1 with
           | none => DResult.incomplete
           | some (n, p2) => mk a n p2) := by
      intro mk
      rw [e16 (pos + 1) (by omega)]
      cases h1 : read_u16_be b2 (pos + 1) with
      | none => rfl
      | some t1 =>
        obtain ⟨a, p1⟩ := t1
        obtain ⟨hp1, _⟩ := read_u16_be_some_inv h1
        subst hp1
        dsimp only
        rw [e16 (pos + 1 + 2) (by omega)]
    by_cases hkn : known_function func = true
    · rw [known_function] at hkn
      simp only [Bool.or_eq_true, decide_eq_true_eq] at hkn
      rcases hkn with ⟨⟨⟨⟨⟨⟨⟨hv | hv⟩ | hv⟩ | hv⟩ | hv⟩ | hv⟩ | hv⟩ | hv⟩ | hv <;> subst hv <;>
        rw [read_pdu, read_pdu, h8, hf] <;> dsimp only
      · exact step2 _
      · exact step2 _
      · exact step2 _
      · exact step2 _
      · exact step2 _
      · exact step2 _
      · rw [e16 (pos + 1) (by omega)]
        cases h1 : read_u16_be b2 (pos + 1) with
        | none => rfl
        | some t1 =>
          obtain ⟨a, p1⟩ := t1
          obtain ⟨hp1, _⟩ := read_u16_be_some_inv h1
          subst hp1
          dsimp only
          rw [e16 (pos + 1 + 2) (by omega)]
          cases h2 : read_u16_be b2 (pos + 1 + 2) with
        | none => rfl
        | some t2 =>
          obtain ⟨n, p2⟩ := t2
          obtain ⟨hp2, _⟩ := read_u16_be_some_inv h2
          subst hp2
          dsimp only
          rw [read_u8_congr (pos + 1 + 2 + 2) (hag _ (by omega))]
          cases h3 : read_u8 b2 (pos + 1 + 2 + 2) with
          | none => rfl
          | some t3 =>
            obtain ⟨nb, p3⟩ := t3
            obtain ⟨hp3, _⟩ := read_u8_some_inv h3
            subst hp3
            dsimp only
            rw [een (pos + 1 + 2 + 2 + 1) nb, eby (pos + 1 + 2 + 2 + 1) (get_coils_len n)
              (by omega)]
      · rw [e16 (pos + 1) (by omega)]
        cases h1 : read_u16_be b2 (pos + 1) with
        | none => rfl
        | some t1 =>
          obtain ⟨a, p1⟩ := t1
          obtain ⟨hp1, _⟩ := read_u16_be_some_inv h1
          subst hp1
          dsimp only
          rw [e16 (pos + 1 + 2) (by omega)]
          cases h2 : read_u16_be b2 (pos + 1 + 2) with
        | none => rfl
        | some t2 =>
          obtain ⟨n, p2⟩ := t2
          obtain ⟨hp2, _⟩ := read_u16_be_some_inv h2
          subst hp2
          dsimp only
          rw [read_u8_congr (pos + 1 + 2 + 2) (hag _ (by omega))]
          cases h3 : read_u8 b2 (pos + 1 + 2 + 2) with
          | none => rfl
          | some t3 =>
            obtain ⟨nb, p3⟩ := t3
            obtain ⟨hp3, _⟩ := read_u8_some_inv h3
            subst hp3
            dsimp only
            rw [een (pos + 1 + 2 + 2 + 1) nb, eby (pos + 1 + 2 + 2 + 1) (get_registers_len n)
              (by omega)]
      · rw [read_u8_congr (pos + 1) (hag _ (by omega))]
        cases h1 : read_u8 b2 (pos + 1) with
        | none => rfl
        | some t1 =>
          obtain ⟨mei, p1⟩ := t1
          obtain ⟨hp1, _⟩ := read_u8_some_inv h1
          subst hp1
          dsimp only
          rw [een (pos + 1 + 1) 1, erem (pos + 1 + 1), eby (pos + 1 + 1) 1 (by omega),
            eby (pos + 1 + 1) (remaining b2 (pos + 1 + 1) % 65536) (by omega)]
    · have hkn2 : known_function func = false := by
        rcases hb : known_function func with _ | _
        · rfl
        · exact absurd hb hkn
      rw [read_pdu_raw_arm (h8.trans hf) hkn2, read_pdu_raw_arm hf hkn2, erem (pos + 1),
        drop_eq_of_agree hlen (fun i hi => hag i (by omega))]

lemma getElem?_eq_some_iff_getD {l : List Nat} {i v : Nat} :
    l[i]? = some v ↔ (i < l.length ∧ l.getD i 0 = v) := by
  constructor
  · intro h
    have hlt : i < l.length := by
      by_contra hc
      rw [List.getElem?_eq_none (by omega)] at h
      cases h
    exact ⟨hlt, by rw [List.getD_eq_getElem?_getD, h, Option.getD_some]⟩
  · rintro ⟨hlt, hv⟩
    rw [List.getElem?_eq_getElem hlt]
    rw [List.getD_eq_getElem l 0 hlt] at hv
    rw [hv]

lemma read_u8_eq_some_iff {buf : List Nat} {pos v p : Nat} :
    read_u8 buf pos = some (v, p) ↔
      (pos < buf.length ∧ buf.getD pos 0 = v ∧ p = pos + 1) := by
  rw [read_u8]
  rcases hg : buf[pos]? with _ | b
  · rw [List.getElem?_eq_none_iff] at hg
    simp
    omega
  · rw [getElem?_eq_some_iff_getD] at hg
    simp only [Option.some.injEq, Prod.mk.injEq]
    constructor
    · rintro ⟨hb, hp⟩
      exact ⟨hg.1, by rw [hg.2, hb], hp.symm⟩
    · rintro ⟨_, hv, hp⟩
      exact ⟨by rw [← hg.2, hv], hp.symm⟩

lemma read_u16_be_eq_some_iff {buf : List Nat} {pos v p : Nat} :
    read_u16_be buf pos = some (v, p) ↔
      (pos + 1 < buf.length ∧ buf.getD pos 0 * 256 + buf.getD (pos + 1) 0 = v ∧
        p = pos + 2) := by
  constructor
  · intro h
    obtain ⟨hp, hlen⟩ := read_u16_be_some_inv h
    rw [read_u16_be_eq_some buf pos (by omega)] at h
    simp only [Option.some.injEq, Prod.mk.injEq] at h
    exact ⟨by omega, h.1, hp⟩
  · rintro ⟨hlt, hv, hp⟩
    rw [read_u16_be_eq_some buf pos (by omega), hv, hp]

lemma read_u8_eq_some_iff2 {buf : List Nat} {pos v p : Nat} :
    some (v, p) = read_u8 buf pos ↔
      (pos < buf.length ∧ buf.getD pos 0 = v ∧ p = pos + 1) := by
  rw [eq_comm, read_u8_eq_some_iff]

lemma read_u16_be_eq_some_iff2 {buf : List Nat} {pos v p : Nat} :
    some (v, p) = read_u16_be buf pos ↔
      (pos + 1 < buf.length ∧ buf.getD pos 0 * 256 + buf.getD (pos + 1) 0 = v ∧
        p = pos + 2) := by
  rw [eq_comm, read_u16_be_eq_some_iff]

lemma is_enough_eq_some_iff2 {buf : List Nat} {pos n : Nat} {b : Bool} :
    some b = is_enough buf pos n ↔ (n ≤ buf.length - pos ∧ b = true) := by
  rw [eq_comm, is_enough_eq_some_iff]

/-- An accepted PDU parse strictly advances the cursor and stays within
the buffer. -/
lemma read_pdu_pos_lt {buf : List Nat} {pos : Nat} {f : RequestPdu} {k : Nat}
    (h : read_pdu buf pos = .ok (f, k)) : pos < k ∧ k ≤ buf.length := by
  rw [read_pdu] at h
  repeat' split at h
  all_goals
    simp only [read_u8_eq_some_iff, read_u16_be_eq_some_iff, is_enough_eq_some_iff,
      read_u8_eq_some_iff2, read_u16_be_eq_some_iff2, is_enough_eq_some_iff2,
      read_bytes, remaining, MAX_DATA_SIZE, Nat.min_eq_min, Bool.and_eq_true,
      decide_eq_true_eq, beq_iff_eq,
      Bool.or_eq_true, DResult.ok.injEq, Prod.mk.injEq, reduceCtorEq] at *
  all_goals try obtain ⟨hf, hk⟩ := h
  all_goals omega

/-- C10: the Net-mode decoder is insensitive to the MBAP length field beyond
its range check: for two input buffers byte-for-byte identical except at the
two length-field bytes (indices 4 and 5), both encoding a length in
[2, MAX_DATA_SIZE], SlaveCodec::decode returns the same result and leaves
the buffers in the same state (still agreeing everywhere outside indices
4 and 5) — the length field is never used to delimit the PDU. -/
theorem net_decode_len_insensitive (flow : CodecFlowType) (b1 b2 : List Nat)
    (hlen : b1.length = b2.length)
    (hag : ∀ i, i ≠ 4 → i ≠ 5 → b1[i]? = b2[i]?)
    (hr1 : 2 ≤ b1.getD 4 0 * 256 + b1.getD 5 0 ∧
      b1.getD 4 0 * 256 + b1.getD 5 0 ≤ MAX_DATA_SIZE)
    (hr2 : 2 ≤ b2.getD 4 0 * 256 + b2.getD 5 0 ∧
      b2.getD 4 0 * 256 + b2.getD 5 0 ≤ MAX_DATA_SIZE) :
    (decode .net flow b1).1 = (decode .net flow b2).1 ∧
    (decode .net flow b1).2.length = (decode .net flow b2).2.length ∧
    ∀ i, i ≠ 4 → i ≠ 5 → (decode .net flow b1).2[i]? = (decode .net flow b2).2[i]? := by
  have hgd : ∀ i, i ≠ 4 → i ≠ 5 → b1.getD i 0 = b2.getD i 0 := fun i h4 h5 => by
    rw [List.getD_eq_getElem?_getD, List.getD_eq_getElem?_getD, hag i h4 h5]
  have hpdu : read_pdu b1 7 = read_pdu b2 7 :=
    read_pdu_congr 7 hlen fun i hi => hag i (by omega) (by omega)
  have hd : ∀ b : List Nat, decode .net flow b =
      (match read_net_frame b 0 with
       | .ok (f, _) => .ok f
       | .incomplete => .incomplete
       | .err e => .err e,
       advance_buffer flow b (read_net_frame b 0)) := fun b => rfl
  rw [hd, hd]
  by_cases h7 : b1.length < 7
  · have f1 : read_net_frame b1 0 = .incomplete := by
      rw [read_net_frame, (read_mbap_spec b1).1 h7]
    have f2 : read_net_frame b2 0 = .incomplete := by
      rw [read_net_frame, (read_mbap_spec b2).1 (by omega)]
    rw [f1, f2]
    cases flow
    · exact ⟨rfl, rfl, fun i _ _ => rfl⟩
    · exact ⟨rfl, hlen, hag⟩
  · have h7' : 7 ≤ b1.length := by omega
    have h7'' : 7 ≤ b2.length := by omega
    have hp23 : b2.getD 2 0 * 256 + b2.getD 3 0 = b1.getD 2 0 * 256 + b1.getD 3 0 := by
      rw [hgd 2 (by omega) (by omega), hgd 3 (by omega) (by omega)]
    by_cases hp : b1.getD 2 0 * 256 + b1.getD 3 0 ≠ 0
    · have f1 : read_net_frame b1 0 = .err .invalidVersion := by
        rw [read_net_frame, ((read_mbap_spec b1).2 h7').1.mpr hp]
      have f2 : read_net_frame b2 0 = .err .invalidVersion := by
        rw [read_net_frame, ((read_mbap_spec b2).2 h7'').1.mpr (by omega)]
      rw [f1, f2]
      exact ⟨rfl, rfl, fun i _ _ => rfl⟩
    · push_neg at hp
      have e1 := ((read_mbap_spec b1).2 h7').2.2 ⟨hp, hr1.1, hr1.2⟩
      have e2 := ((read_mbap_spec b2).2 h7'').2.2 ⟨by omega, hr2.1, hr2.2⟩
      cases hk : read_pdu b2 7 with
      | incomplete =>
        have f1 : read_net_frame b1 0 = .incomplete := by
          rw [read_net_frame, e1]; dsimp only; rw [hpdu, hk]
        have f2 : read_net_frame b2 0 = .incomplete := by
          rw [read_net_frame, e2]; dsimp only; rw [hk]
        rw [f1, f2]
        cases flow
        · exact ⟨rfl, rfl, fun i _ _ => rfl⟩
        · exact ⟨rfl, hlen, hag⟩
      | err e =>
        have f1 : read_net_frame b1 0 = .err e := by
          rw [read_net_frame, e1]; dsimp only; rw [hpdu, hk]
        have f2 : read_net_frame b2 0 = .err e := by
          rw [read_net_frame, e2]; dsimp only; rw [hk]
        rw [f1, f2]
        exact ⟨rfl, rfl, fun i _ _ => rfl⟩
      | ok t =>
        obtain ⟨pdu, k⟩ := t
        obtain ⟨hk7, _⟩ := read_pdu_pos_lt (hpdu.trans hk)
        have f1 : read_net_frame b1 0 =
            .ok ({ id := b1.getD 0 0 * 256 + b1.getD 1 0, slave := b1.getD 6 0,
                   pdu := pdu }, k) := by
          rw [read_net_frame, e1]; dsimp only; rw [hpdu, hk]
        have f2 : read_net_frame b2 0 =
            .ok ({ id := b2.getD 0 0 * 256 + b2.getD 1 0, slave := b2.getD 6 0,
                   pdu := pdu }, k) := by
          rw [read_net_frame, e2]; dsimp only; rw [hk]
        rw [f1, f2]
        have hdrop : b1.drop k = b2.drop k :=
          drop_eq_of_agree hlen fun i hi => hag i (by omega) (by omega)
        refine ⟨?_, ?_, ?_⟩
        · dsimp only
          rw [hgd 0 (by omega) (by omega), hgd 1 (by omega) (by omega),
            hgd 6 (by omega) (by omega)]
        · dsimp only [advance_buffer]
          rw [hdrop]
        · intro i _ _
          dsimp only [advance_buffer]
          rw [hdrop]

theorem net_decode_len_insensitive_witness :
    (decode .net .stream [0, 1, 0, 0, 0, 6, 0x11, 3, 0, 0x6B, 0, 3]).1 =
      (decode .net .stream [0, 1, 0, 0, 1, 0, 0x11, 3, 0, 0x6B, 0, 3]).1 :=
  (net_decode_len_insensitive .stream
    [0, 1, 0, 0, 0, 6, 0x11, 3, 0, 0x6B, 0, 3]
    [0, 1, 0, 0, 1, 0, 0x11, 3, 0, 0x6B, 0, 3]
    (by decide)
    (fun i h4 h5 => by
      rcases i with _ | _ | _ | _ | _ | _ | i
      · rfl
      · rfl
      · rfl
      · rfl
      · omega
      · omega
      · rfl)
    (by decide) (by decide)).1

lemma read_u8_mono {buf ext : List Nat} {p v q : Nat} (h : read_u8 buf p = some (v, q)) :
    read_u8 (buf ++ ext) p = some (v, q) := by
  rw [read_u8] at h ⊢
  rcases hg : buf[p]? with _ | b <;> rw [hg] at h
  · cases h
  · have hlt : p < buf.length := by
      by_contra hc
      rw [List.getElem?_eq_none (by omega)] at hg
      cases hg
    rw [List.getElem?_append_left hlt, hg]
    exact h

lemma read_u16_be_mono {buf ext : List Nat} {p v q : Nat}
    (h : read_u16_be buf p = some (v, q)) : read_u16_be (buf ++ ext) p = some (v, q) := by
  rw [read_u16_be] at h ⊢
  rcases h1 : read_u8 buf p with _ | ⟨hi, p1⟩ <;> rw [h1] at h <;> dsimp only at h
  · cases h
  · rw [read_u8_mono h1]
    dsimp only
    rcases h2 : read_u8 buf p1 with _ | ⟨lo, p2⟩ <;> rw [h2] at h <;> dsimp only at h
    · cases h
    · rw [read_u8_mono h2]
      exact h

lemma is_enough_mono {buf ext : List Nat} {p n : Nat} {b : Bool}
    (h : is_enough buf p n = some b) : is_enough (buf ++ ext) p n = some b := by
  rw [is_enough_eq_some_iff] at h ⊢
  simp only [List.length_append]
  obtain ⟨hn, hb⟩ := h
  exact ⟨by omega, hb⟩

lemma read_bytes_stable {buf ext : List Nat} {p n : Nat} (h : p + n ≤ buf.length) :
    read_bytes (buf ++ ext) p n = read_bytes buf p n := by
  rw [read_bytes, read_bytes, List.drop_append_of_le_length (by omega),
    List.take_append_of_le_length (by simp only [List.length_drop]; omega)]

/-- The PDU parser is stable under extending the buffer whenever the
accepted parse went through a dedicated arm (known function, and for 0x2B
an MEI type other than 13): all its reads and checks then depend only on
bytes of the original buffer. -/
lemma read_pdu_stable {buf ext : List Nat} {pos : Nat} {f : RequestPdu} {k : Nat}
    (h : read_pdu buf pos = .ok (f, k))
    (hkn : known_function (buf.getD pos 0) = true)
    (hmei : buf.getD pos 0 = 43 → buf.getD (pos + 1) 0 ≠ 13) :
    read_pdu (buf ++ ext) pos = .ok (f, k) := by
  rw [read_pdu] at h
  rcases h8 : read_u8 buf pos with _ | ⟨func, p0⟩ <;> rw [h8] at h <;> dsimp only at h
  · cases h
  obtain ⟨hp0, hg8⟩ := read_u8_some_inv h8
  subst hp0
  have hgd0 : buf.getD pos 0 = func := (getElem?_eq_some_iff_getD.mp hg8).2
  rw [hgd0] at hkn hmei
  rw [read_pdu, read_u8_mono h8]
  dsimp only
  have step2s : ∀ (mk : Nat → Nat → Nat → DResult (RequestPdu × Nat)),
      (match read_u16_be buf (pos + 1) with
       | none => DResult.incomplete
       | some (a, p1) =>
         match read_u16_be buf p1 with
         | none => DResult.incomplete
         | some (n, p2) => mk a n p2) = .ok (f, k) →
      (match read_u16_be (buf ++ ext) (pos + 1) with
       | none => DResult.incomplete
       | some (a, p1) =>
         match read_u16_be (buf ++ ext) p1 with
         | none => DResult.incomplete
         | some (n, p2) => mk a n p2) = .ok (f, k) := by
    intro mk hm
    rcases h1 : read_u16_be buf (pos + 1) with _ | ⟨a, p1⟩ <;> rw [h1] at hm <;>
      dsimp only at hm
    · cases hm
    · rw [read_u16_be_mono h1]
      dsimp only
      rcases h2 : read_u16_be buf p1 with _ | ⟨n, p2⟩ <;> rw [h2] at hm <;> dsimp only at hm
      · cases hm
      · rw [read_u16_be_mono h2]
        exact hm
  rw [known_function] at hkn
  simp only [Bool.or_eq_true, decide_eq_true_eq] at hkn
  rcases hkn with ⟨⟨⟨⟨⟨⟨⟨hv | hv⟩ | hv⟩ | hv⟩ | hv⟩ | hv⟩ | hv⟩ | hv⟩ | hv <;> subst hv <;>
    dsimp only at h ⊢
  · exact step2s _ h
  · exact step2s _ h
  · exact step2s _ h
  · exact step2s _ h
  · exact step2s _ h
  · exact step2s _ h
  · rcases h1 : read_u16_be buf (pos + 1) with _ | ⟨address, p1⟩ <;> rw [h1] at h <;>
      dsimp only at h
    · cases h
    rw [read_u16_be_mono h1]
    dsimp only
    rcases h2 : read_u16_be buf p1 with _ | ⟨nobjs, p2⟩ <;> rw [h2] at h <;> dsimp only at h
    · cases h
    rw [read_u16_be_mono h2]
    dsimp only
    rcases h3 : read_u8 buf p2 with _ | ⟨nbytes, p3⟩ <;> rw [h3] at h <;> dsimp only at h
    · cases h
    rw [read_u8_mono h3]
    dsimp only
    by_cases hc : check_coils_count nobjs = true
    · rw [if_pos hc] at h ⊢
      by_cases hb : (get_coils_len nobjs == nbytes) = true
      · rw [if_pos hb] at h ⊢
        rcases he : is_enough buf p3 nbytes with _ | bb <;> rw [he] at h <;> dsimp only at h
        · cases h
        rw [is_enough_mono he]
        dsimp only
        rw [is_enough_eq_some_iff] at he
        have hp3 : p3 = p2 + 1 := (read_u8_some_inv h3).1
        have hp2 : p2 < buf.length := read_u8_some_lt h3
        have hnb : get_coils_len nobjs = nbytes := by simpa using hb
        rw [read_bytes_stable (by omega)]
        exact h
      · rw [if_neg hb] at h
        cases h
    · rw [if_neg hc] at h
      cases h
  · rcases h1 : read_u16_be buf (pos + 1) with _ | ⟨address, p1⟩ <;> rw [h1] at h <;>
      dsimp only at h
    · cases h
    rw [read_u16_be_mono h1]
    dsimp only
    rcases h2 : read_u16_be buf p1 with _ | ⟨nobjs, p2⟩ <;> rw [h2] at h <;> dsimp only at h
    · cases h
    rw [read_u16_be_mono h2]
    dsimp only
    rcases h3 : read_u8 buf p2 with _ | ⟨nbytes, p3⟩ <;> rw [h3] at h <;> dsimp only at h
    · cases h
    rw [read_u8_mono h3]
    dsimp only
    by_cases hc : check_registers_count nobjs = true
    · rw [if_pos hc] at h ⊢
      by_cases hb : (get_registers_len nobjs == nbytes) = true
      · rw [if_pos hb] at h ⊢
        rcases he : is_enough buf p3 nbytes with _ | bb <;> rw [he] at h <;> dsimp only at h
        · cases h
        rw [is_enough_mono he]
        dsimp only
        rw [is_enough_eq_some_iff] at he
        have hp3 : p3 = p2 + 1 := (read_u8_some_inv h3).1
        have hp2 : p2 < buf.length := read_u8_some_lt h3
        have hnb : get_registers_len nobjs = nbytes := by simpa using hb
        rw [read_bytes_stable (by omega)]
        exact h
      · rw [if_neg hb] at h
        cases h
    · rw [if_neg hc] at h
      cases h
  · rcases h1 : read_u8 buf (pos + 1) with _ | ⟨mei, p1⟩ <;> rw [h1] at h <;> dsimp only at h
    · cases h
    rw [read_u8_mono h1]
    dsimp only
    have hgd1 : buf.getD (pos + 1) 0 = mei := (getElem?_eq_some_iff_getD.mp
      (read_u8_some_inv h1).2).2
    have hm13 : mei ≠ 13 := fun hx => hmei rfl (hgd1.trans hx)
    by_cases hcond : (mei == 14 || mei == 13) = true
    · rw [if_pos hcond] at h ⊢
      rcases he : is_enough buf p1 1 with _ | bb <;> rw [he] at h <;> dsimp only at h
      · cases h
      rw [is_enough_mono he]
      dsimp only
      rw [is_enough_eq_some_iff] at he
      simp only [Bool.or_eq_true, beq_iff_eq] at hcond
      rcases hcond with h14 | h13
      · subst h14
        rw [if_pos (by rfl)] at h ⊢
        rw [read_bytes_stable (by omega)]
        exact h
      · exact absurd h13 hm13
    · rw [if_neg hcond] at h
      cases h

lemma read_mbap_mono {buf ext : List Nat} {hdr : Mbap} {p : Nat}
    (h : read_mbap buf 0 = .ok (hdr, p)) :
    read_mbap (buf ++ ext) 0 = .ok (hdr, p) ∧ p = 7 := by
  rw [read_mbap] at h ⊢
  rcases h1 : read_u16_be buf 0 with _ | ⟨hid, p1⟩ <;> rw [h1] at h <;> dsimp only at h
  · cases h
  rw [read_u16_be_mono h1]
  dsimp only
  rcases h2 : read_u16_be buf p1 with _ | ⟨proto, p2⟩ <;> rw [h2] at h <;> dsimp only at h
  · cases h
  rw [read_u16_be_mono h2]
  dsimp only
  rcases h3 : read_u16_be buf p2 with _ | ⟨len, p3⟩ <;> rw [h3] at h <;> dsimp only at h
  · cases h
  rw [read_u16_be_mono h3]
  dsimp only
  rcases h4 : read_u8 buf p3 with _ | ⟨slave, p4⟩ <;> rw [h4] at h <;> dsimp only at h
  · cases h
  rw [read_u8_mono h4]
  dsimp only
  refine ⟨h, ?_⟩
  split at h
  · cases h
  split at h
  · cases h
  have hp4 : p4 = p := by
    simp only [DResult.ok.injEq, Prod.mk.injEq] at h
    exact h.2
  obtain ⟨e1, _⟩ := read_u16_be_some_inv h1
  obtain ⟨e2, _⟩ := read_u16_be_some_inv h2
  obtain ⟨e3, _⟩ := read_u16_be_some_inv h3
  have e4 := (read_u8_some_inv h4).1
  omega

lemma read_crc_mono {buf ext : List Nat} {p v q : Nat}
    (h : read_crc buf p = .ok (v, q)) :
    read_crc (buf ++ ext) p = .ok (v, q) ∧ q = p + 2 ∧ p + 2 ≤ buf.length := by
  rw [read_crc] at h ⊢
  rcases h1 : read_u16_be buf p with _ | ⟨crc, p1⟩ <;> rw [h1] at h <;> dsimp only at h
  · cases h
  obtain ⟨hp1, hlen⟩ := read_u16_be_some_inv h1
  rw [read_u16_be_mono h1]
  dsimp only
  rw [List.take_append_of_le_length (by omega)]
  split at h
  next hcond =>
    rw [if_pos hcond]
    have hq : p1 = q := by
      simp only [DResult.ok.injEq, Prod.mk.injEq] at h
      exact h.2
    exact ⟨h, by omega, by omega⟩
  next => cases h

/-- Position of the PDU function byte within a frame: after the slave
address on RTU, after the 7-byte MBAP header on Net. -/
def pdu_start : CodecMode → Nat
  | .rtu => 1
  | .net => 7

/-- The syntactic condition on a buffer under which an accepted frame
parse does not depend on the buffer length: the function byte has a
dedicated decoder arm, and for function 0x2B the MEI type byte is not 13
(the Raw fall-through and the MEI-13 arm both consume a length-dependent
number of bytes). -/
def stable_head (mode : CodecMode) (buf : List Nat) : Bool :=
  known_function (buf.getD (pdu_start mode) 0) &&
    (buf.getD (pdu_start mode) 0 != 43 || buf.getD (pdu_start mode + 1) 0 != 13)

lemma read_rtu_frame_stable {buf ext : List Nat} {fr : RequestFrame} {k : Nat}
    (h : read_rtu_frame buf 0 = .ok (fr, k))
    (hkn : known_function (buf.getD 1 0) = true)
    (hmei : buf.getD 1 0 = 43 → buf.getD 2 0 ≠ 13) :
    read_rtu_frame (buf ++ ext) 0 = .ok (fr, k) ∧ k ≤ buf.length := by
  rw [read_rtu_frame] at h ⊢
  rcases h1 : read_u8 buf 0 with _ | ⟨slave, p1⟩ <;> rw [h1] at h <;> dsimp only at h
  · cases h
  rw [read_u8_mono h1]
  dsimp only
  have hp1 : p1 = 1 := (read_u8_some_inv h1).1
  subst hp1
  rcases hp : read_pdu buf 1 with e | _ | ⟨pdu, p2⟩ <;> rw [hp] at h <;> dsimp only at h
  · cases h
  · cases h
  rw [read_pdu_stable hp hkn hmei]
  dsimp only
  rcases hc : read_crc buf p2 with e | _ | ⟨crc, p3⟩ <;> rw [hc] at h <;> dsimp only at h
  · cases h
  · cases h
  obtain ⟨hcext, hp3, hlen⟩ := read_crc_mono hc
  rw [hcext]
  dsimp only
  refine ⟨h, ?_⟩
  have hk : p3 = k := by
    simp only [DResult.ok.injEq, Prod.mk.injEq] at h
    exact h.2
  omega

lemma read_net_frame_stable {buf ext : List Nat} {fr : RequestFrame} {k : Nat}
    (h : read_net_frame buf 0 = .ok (fr, k))
    (hkn : known_function (buf.getD 7 0) = true)
    (hmei : buf.getD 7 0 = 43 → buf.getD 8 0 ≠ 13) :
    read_net_frame (buf ++ ext) 0 = .ok (fr, k) ∧ k ≤ buf.length := by
  rw [read_net_frame] at h ⊢
  rcases hm : read_mbap buf 0 with e | _ | ⟨hdr, p1⟩ <;> rw [hm] at h <;> dsimp only at h
  · cases h
  · cases h
  obtain ⟨hmext, hp1⟩ := read_mbap_mono hm
  rw [hmext]
  dsimp only
  subst hp1
  rcases hp : read_pdu buf 7 with e | _ | ⟨pdu, k2⟩ <;> rw [hp] at h <;> dsimp only at h
  · cases h
  · cases h
  rw [read_pdu_stable hp hkn hmei]
  dsimp only
  refine ⟨h, ?_⟩
  have hb := read_pdu_pos_lt hp
  have hk : k2 = k := by
    simp only [DResult.ok.injEq, Prod.mk.injEq] at h
    exact h.2
  omega

lemma parse_frame_stable {mode : CodecMode} {buf ext : List Nat} {fr : RequestFrame}
    {k : Nat} (h : parse_frame mode buf = .ok (fr, k)) (hg : stable_head mode buf = true) :
    parse_frame mode (buf ++ ext) = .ok (fr, k) ∧ k ≤ buf.length := by
  rw [stable_head] at hg
  simp only [Bool.and_eq_true, Bool.or_eq_true, bne_iff_ne, ne_eq, decide_eq_true_eq] at hg
  cases mode
  · exact read_rtu_frame_stable h hg.1 fun h43 => hg.2.resolve_left (not_not_intro h43)
  · exact read_net_frame_stable h hg.1 fun h43 => hg.2.resolve_left (not_not_intro h43)

/-- A Stream-flow decode call that accepted a frame behaves identically on
any extension of the buffer, when the frame head is stable: the same frame
comes back and the leftover is the old leftover followed by the extension. -/
lemma decode_stream_step_stable {mode : CodecMode} {buf ext rest : List Nat}
    {fr : RequestFrame}
    (h : decode mode .stream buf = (.ok fr, rest))
    (hg : stable_head mode buf = true) :
    decode mode .stream (buf ++ ext) = (.ok fr, rest ++ ext) := by
  have hd : ∀ b : List Nat, decode mode .stream b =
      (match parse_frame mode b with
       | .ok (f, _) => .ok f
       | .incomplete => .incomplete
       | .err e => .err e,
       advance_buffer .stream b (parse_frame mode b)) := fun b => rfl
  rw [hd] at h
  rw [hd]
  rcases hp : parse_frame mode buf with e | _ | ⟨f, k⟩ <;> rw [hp] at h
  · simp at h
  · simp at h
  · obtain ⟨hs, hk⟩ := parse_frame_stable hp hg
    rw [hs]
    simp only [advance_buffer, Prod.mk.injEq, DResult.ok.injEq] at h
    obtain ⟨hf, hr⟩ := h
    subst hf
    subst hr
    simp only [advance_buffer, Prod.mk.injEq, DResult.ok.injEq]
    exact ⟨trivial, List.drop_append_of_le_length hk⟩

/-- A complete Stream-flow decode run: repeatedly calling decode on the
buffer, consing up the accepted frames, until the call reports Ok(None);
the last index is the leftover buffer awaiting more input.  A run that
hits a decode error has no derivation. -/
inductive StreamRun (mode : CodecMode) : List Nat → List RequestFrame → List Nat → Prop
  | done (buf : List Nat) (h : (decode mode .stream buf).1 = .incomplete) :
      StreamRun mode buf [] buf
  | step (buf rest out : List Nat) (fr : RequestFrame) (frames : List RequestFrame)
      (h : decode mode .stream buf = (.ok fr, rest))
      (hr : StreamRun mode rest frames out) :
      StreamRun mode buf (fr :: frames) out

/-- A Stream-flow decode run all of whose accepted frames have a stable
head (a dedicated decoder arm, and not the MEI-13 arm). -/
inductive GoodRun (mode : CodecMode) : List Nat → List RequestFrame → List Nat → Prop
  | done (buf : List Nat) (h : (decode mode .stream buf).1 = .incomplete) :
      GoodRun mode buf [] buf
  | step (buf rest out : List Nat) (fr : RequestFrame) (frames : List RequestFrame)
      (h : decode mode .stream buf = (.ok fr, rest))
      (hg : stable_head mode buf = true)
      (hr : GoodRun mode rest frames out) :
      GoodRun mode buf (fr :: frames) out

lemma streamRun_unique {mode : CodecMode} {buf : List Nat} {fs1 : List RequestFrame}
    {r1 : List Nat} (h1 : StreamRun mode buf fs1 r1) :
    ∀ {fs2 : List RequestFrame} {r2 : List Nat}, StreamRun mode buf fs2 r2 →
      fs1 = fs2 ∧ r1 = r2 := by
  induction h1 with
  | done buf hd =>
    intro fs2 r2 h2
    cases h2 with
    | done _ _ => exact ⟨rfl, rfl⟩
    | step _ rest _ fr frames hs hr =>
      rw [hs] at hd
      cases hd
  | step buf rest out fr frames hs hr ih =>
    intro fs2 r2 h2
    cases h2 with
    | done _ hd =>
      rw [hs] at hd
      cases hd
    | step _ rest2 _ fr2 frames2 hs2 hr2 =>
      rw [hs] at hs2
      simp only [Prod.mk.injEq, DResult.ok.injEq] at hs2
      obtain ⟨hf, hrest⟩ := hs2
      subst hf
      subst hrest
      obtain ⟨ha, hb⟩ := ih hr2
      exact ⟨by rw [ha], hb⟩

/-- C1 counterexample: split-invariance fails as stated.  The Raw
fall-through arm consumes min(remaining, 256) bytes, so the frame it
produces depends on how much of the stream has arrived: feeding the first
8 bytes of the 9-byte Net stream decodes a Raw frame with an empty body
and then leaves the ninth byte pending, while decoding the whole stream at
once decodes a Raw frame carrying that ninth byte — two different frame
sequences for the same stream. -/
theorem stream_split_changes_decoded_frames :
    StreamRun .net [0, 1, 0, 0, 0, 3, 0x11, 8]
      [{ id := 1, slave := 0x11, pdu := .raw 8 [] }] [] ∧
    StreamRun .net ([] ++ [0xAA]) [] [0xAA] ∧
    StreamRun .net ([0, 1, 0, 0, 0, 3, 0x11, 8] ++ [0xAA])
      [{ id := 1, slave := 0x11, pdu := .raw 8 [0xAA] }] [] ∧
    [{ id := 1, slave := 0x11, pdu := RequestPdu.raw 8 [] }] ++ ([] : List RequestFrame) ≠
      [{ id := 1, slave := 0x11, pdu := RequestPdu.raw 8 [0xAA] }] := by
  refine ⟨?_, ?_, ?_, by decide⟩
  · exact .step _ _ _ _ _ (by decide) (.done _ (by decide))
  · exact .done _ (by decide)
  · exact .step _ _ _ _ _ (by decide) (.done _ (by decide))

/-- C1 (amended): Stream-mode incremental decoding is split-invariant for
well-headed streams: if repeatedly decoding B1 accepts the frame list F1
and stops awaiting input with leftover R, with every accepted frame parsed
through a dedicated decoder arm (a known function code, and for 0x2B an
MEI type other than 13), and repeatedly decoding R followed by B2 yields
F2 with leftover R2, then decoding B1 followed by B2 as one stream yields
exactly F1 followed by F2 with leftover R2 — and by determinism of decode
this is the only run of the whole stream.  The counterexample shows the
side condition cannot be dropped. -/
theorem stream_split_invariance (mode : CodecMode) (b1 b2 rest1 rest2 : List Nat)
    (frames1 frames2 : List RequestFrame)
    (h1 : GoodRun mode b1 frames1 rest1)
    (h2 : StreamRun mode (rest1 ++ b2) frames2 rest2) :
    StreamRun mode (b1 ++ b2) (frames1 ++ frames2) rest2 ∧
    ∀ frames rest, StreamRun mode (b1 ++ b2) frames rest →
      frames = frames1 ++ frames2 ∧ rest = rest2 := by
  have hmain : ∀ (f2 : List RequestFrame) (r2 : List Nat),
      StreamRun mode (rest1 ++ b2) f2 r2 →
      StreamRun mode (b1 ++ b2) (frames1 ++ f2) r2 := by
    clear h2
    induction h1 with
    | done buf hd =>
      intro f2 r2 hh
      exact hh
    | step buf rest out fr frames hs hg hr ih =>
      intro f2 r2 hh
      exact StreamRun.step _ _ _ _ _ (decode_stream_step_stable hs hg) (ih f2 r2 hh)
  refine ⟨hmain frames2 rest2 h2, fun frames rest hw => ?_⟩
  obtain ⟨ha, hb⟩ := streamRun_unique (hmain frames2 rest2 h2) hw
  exact ⟨ha.symm, hb.symm⟩

theorem stream_split_invariance_witness :
    StreamRun .net ([0, 1, 0, 0, 0, 6, 0x11, 3, 0, 0x6B, 0, 3] ++ [0, 2])
      ([{ id := 1, slave := 0x11, pdu := .readHoldingRegisters 0x6B 3 }] ++ []) [0, 2] :=
  (stream_split_invariance .net [0, 1, 0, 0, 0, 6, 0x11, 3, 0, 0x6B, 0, 3] [0, 2] [] [0, 2]
    [{ id := 1, slave := 0x11, pdu := .readHoldingRegisters 0x6B 3 }] []
    (GoodRun.step _ _ _ _ _ (by decide) (by decide) (GoodRun.done _ (by decide)))
    (StreamRun.done _ (by decide))).1

end Modbus
